import Mathlib

/-!
Verification of the automaton-diagram generator (`adielBm/fsm`).

The definitions below are a shallow embedding of the core functions of
`src/unnamed/part_000` (the React `Generator` component): the grid layout
search (`getPermutations`, `getPossibleGridSizes`, `calculateTransitionCost`,
`findOptimalStatePlacement`), the transition table and connectivity oracle
(`createTransitions`, `checkTransition`, `checkConnection`), and the edge
router / diagram emitter (`doesLineCrossOtherElements`, `getEdge`,
`bendDirection`, `formatSymbol`, and the node/edge emission loops of
`generate`).

Modelling conventions:
* JS `null` cells of the grid become `Option String` with `none`;
  a grid is `List (List (Option String))`.
* JS objects used as string-keyed records become association lists that keep
  insertion order (new keys are appended at the end, existing keys are
  updated in place), matching JS enumeration order of string keys.
* The record `statePositions` is read off the built grid: a lookup returns
  the coordinates of the last row-major occurrence, which is exactly the
  overwrite semantics of the JS record assignments.
* JS `Array.prototype.sort()` on the symbol strings is modelled by an
  insertion sort with the lexicographic `≤` on `String`; for the comma-free
  symbol tokens that arise here this agrees with the UTF-16 comparison of JS.
* The recursive permutation generator is modelled with a fuel argument equal
  to the list length, which is always sufficient, so the function agrees with
  the JS recursion on every input.
-/

/-- A grid cell holds a state name or is empty (JS `null`). -/
abbrev Grid := List (List (Option String))

/-- The normalized transition table (JS `Transitions`):
source state ↦ (comma-joined symbol key ↦ ordered list of destinations),
as insertion-ordered association lists. -/
abbrev Transitions := List (String × List (String × List String))

/-- `[...arr.slice(0, i), ...arr.slice(i + 1)]` from `getPermutations`. -/
def removeAt (l : List String) (i : Nat) : List String :=
  l.take i ++ l.drop (i + 1)

/-- Fuelled version of the recursive JS `getPermutations`; the fuel is always
at least the list length at every call, so the branch returning `[]` is
never taken when invoked through `getPermutations`. -/
def getPermsAux : Nat → List String → List (List String)
  | _, [] => [[]]
  | 0, _ :: _ => []
  | fuel + 1, x :: xs =>
    (List.range (x :: xs).length).flatMap (fun i =>
      (getPermsAux fuel (removeAt (x :: xs) i)).map
        (fun p => ((x :: xs).get? i).getD "" :: p))

/-- `getPermutations` (src/unnamed/part_000, lines 21-26): all permutations
of the input list, in the order produced by the recursive generator. -/
def getPermutations (l : List String) : List (List String) :=
  getPermsAux l.length l

/-- `getPossibleGridSizes` (lines 28-43): all pairs `(rows, cols)` with
`1 ≤ rows, cols ≤ n` and `rows*cols = n` or `rows*cols = n+1`, rows-major
enumeration order. -/
def getPossibleGridSizes (n : Nat) : List (Nat × Nat) :=
  (List.range' 1 n).flatMap (fun rows =>
    (List.range' 1 n).filterMap (fun cols =>
      if rows * cols = n ∨ rows * cols = n + 1 then some (rows, cols) else none))

/-- Row `i` of the grid built by the placement loop of
`findOptimalStatePlacement` (lines 78-89): cell `(i, j)` holds `perm[i*cols+j]`
when that index is within the permutation, else `null`. -/
def placeRow (p : List String) (c i : Nat) : List (Option String) :=
  (List.range c).map (fun j => p.get? (i * c + j))

/-- The full grid built by the placement loop for shape `(r, c)` and
permutation `p`. -/
def placeGrid (r c : Nat) (p : List String) : Grid :=
  (List.range r).map (fun i => placeRow p c i)

/-- `bestGrid.filter(row => row.some(cell => cell !== null))` (line 117). -/
def trimGrid (g : Grid) : Grid :=
  g.filter (fun row => row.any (fun cell => cell.isSome))

/-- Positions of the occupied cells of one row, tagged with its row index
(`j` is the index of the first listed cell). -/
def rowPositionsAux (i : Nat) : Nat → List (Option String) → List (String × Nat × Nat)
  | _, [] => []
  | j, none :: rest => rowPositionsAux i (j + 1) rest
  | j, some s :: rest => (s, i, j) :: rowPositionsAux i (j + 1) rest

/-- Row-major list of (state, row, column) for every occupied cell, starting
at row index `i`. -/
def gridPositionsAux (i : Nat) : Grid → List (String × Nat × Nat)
  | [] => []
  | row :: rest => rowPositionsAux i 0 row ++ gridPositionsAux (i + 1) rest

/-- Row-major list of (state, row, column) for every occupied cell. -/
def gridPositions (g : Grid) : List (String × Nat × Nat) :=
  gridPositionsAux 0 g

/-- Lookup in a position list with JS-record overwrite semantics: the last
matching entry wins (matches the repeated `statePositions[perm[i]] = ...`
assignments of the placement loop). -/
def posLookup (ps : List (String × Nat × Nat)) (s : String) : Option (Nat × Nat) :=
  ps.foldl (fun acc e => if e.1 == s then some e.2 else acc) none

/-- `calculateTransitionCost` (lines 45-60): sum of Manhattan distances over
all (source, symbol-key, destination) triples whose two endpoints have
positions. -/
def calculateTransitionCost (pos : String → Option (Nat × Nat)) (ts : Transitions) : Nat :=
  ts.foldl (fun acc fe =>
    fe.2.foldl (fun acc2 se =>
      se.2.foldl (fun acc3 toS =>
        match pos fe.1, pos toS with
        | some p1, some p2 => acc3 + (Nat.dist p1.1 p2.1 + Nat.dist p1.2 p2.2)
        | _, _ => acc3) acc2) acc) 0

/-- Transition cost of a grid: `calculateTransitionCost` applied to the
positions read off the grid (the `statePositions` record of the search). -/
def gridCost (ts : Transitions) (g : Grid) : Nat :=
  calculateTransitionCost (posLookup (gridPositions g)) ts

/-- `grid.some(row => row[0] === initState)` (line 92). -/
def initOk (g : Grid) (init : String) : Bool :=
  g.any (fun row => match row.head? with
    | some (some s) => s == init
    | _ => false)

/-- `row.findLastIndex(cell => cell !== null)` (lines 98, 102), as an
`Option Nat` (JS `-1` becomes `none`). -/
def findLastOccIdx : List (Option String) → Option Nat
  | [] => none
  | c :: rest =>
    match findLastOccIdx rest with
    | some k => some (k + 1)
    | none => if c.isSome then some 0 else none

/-- One row of the first accepting-convention condition (lines 97-99): the
row is empty or its rightmost occupied cell is an accepting state. -/
def rowCondA (accL : List String) (row : List (Option String)) : Bool :=
  match findLastOccIdx row with
  | none => true
  | some k =>
    match row.get? k with
    | some (some s) => accL.contains s
    | _ => false

/-- First accepting-convention condition over the whole grid:
`grid.every(row => rightmost === -1 || accepting.includes(row[rightmost]))`. -/
def condA (g : Grid) (accL : List String) : Bool :=
  g.all (fun row => rowCondA accL row)

/-- One row of the second accepting-convention condition (lines 101-104):
the row has an occupied cell, and some cell strictly before the rightmost
occupied one holds a non-initial accepting state. -/
def rowCondB (accL : List String) (init : String) (row : List (Option String)) : Bool :=
  match findLastOccIdx row with
  | none => false
  | some k =>
    (row.take k).any (fun cell => match cell with
      | some s => accL.contains s && !(s == init)
      | none => false)

/-- Second accepting-convention condition over the whole grid:
`grid.some(row => rightmost !== -1 && row.slice(0, rightmost).some(...))`. -/
def condB (g : Grid) (accL : List String) (init : String) : Bool :=
  g.any (fun row => rowCondB accL init row)

/-- The `continue` condition of the `accToRight` filter (lines 95-106): a
candidate is skipped iff `condA` fails AND `condB` holds. -/
def accReject (g : Grid) (accL : List String) (init : String) : Bool :=
  !(condA g accL) && condB g accL init

/-- Whether a candidate grid survives both hard filters of the search. -/
def passes (init : String) (accL : List String) (a2r : Bool) (g : Grid) : Bool :=
  initOk g init && !(a2r && accReject g accL init)

/-- One iteration of the search loop (lines 76-115), tracking the best grid
and its cost; `none` plays the role of `minCost = Infinity`, `bestGrid = []`. -/
def searchStep (init : String) (accL : List String) (ts : Transitions) (a2r : Bool)
    (best : Option (Grid × Nat)) (cand : Nat × Nat × List String) : Option (Grid × Nat) :=
  let g := placeGrid cand.1 cand.2.1 cand.2.2
  if passes init accL a2r g then
    let cost := gridCost ts g
    match best with
    | none => some (g, cost)
    | some (bg, mc) => if cost < mc then some (g, cost) else some (bg, mc)
  else best

/-- The candidate enumeration: shapes in the outer loop, permutations in the
inner loop. -/
def candList (ss : List String) : List (Nat × Nat × List String) :=
  (getPossibleGridSizes ss.length).flatMap (fun rc =>
    (getPermutations ss).map (fun p => (rc.1, rc.2, p)))

/-- `findOptimalStatePlacement` (lines 62-118). -/
def findOptimalStatePlacement (ss : List String) (init : String) (accL : List String)
    (ts : Transitions) (a2r : Bool) : Grid :=
  match (candList ss).foldl (searchStep init accL ts a2r) none with
  | none => []
  | some (g, _) => trimGrid g

/-! ## Transition table builder and connectivity oracle -/

/-- JS `String.split(',')` restricted to the single-character separator used
by the source, at the character-list level. -/
def splitCommaChars : List Char → List (List Char)
  | [] => [[]]
  | ch :: rest =>
    let r := splitCommaChars rest
    if ch == ',' then [] :: r
    else
      match r with
      | h :: t => (ch :: h) :: t
      | [] => [[ch]]

/-- JS `symbol.split(',')` on a symbol key. -/
def splitComma (s : String) : List String :=
  (splitCommaChars s.data).map (fun cs => String.mk cs)

/-- Append a destination under a symbol key inside one source's record,
updating an existing key in place or appending a new key at the end
(JS object semantics). -/
def addToInner (inner : List (String × List String)) (k toS : String) :
    List (String × List String) :=
  match inner with
  | [] => [(k, [toS])]
  | (k', ds) :: rest =>
    if k' == k then (k', ds ++ [toS]) :: rest
    else (k', ds) :: addToInner rest k toS

/-- Register one parsed transition record into the table (the body of the
`forEach` in `createTransitions`, lines 247-260). -/
def addTrans (tbl : Transitions) (f k toS : String) : Transitions :=
  match tbl with
  | [] => [(f, [(k, [toS])])]
  | (f', inner) :: rest =>
    if f' == f then (f', addToInner inner k toS) :: rest
    else (f', inner) :: addTrans rest f k toS

/-- `createTransitions` (lines 243-263), taking the already-tokenized records
(each a trimmed `[source, symbol_1..symbol_k, destination]` list, i.e. the
result of the `split(';')` / `split(',')` / `trim` preprocessing): the first
element is shifted off as the source, the last is popped as the destination,
and the symbols in between are re-joined with `,` as the key. -/
def createTransitions (records : List (List String)) : Transitions :=
  records.foldl (fun tbl parts =>
    let fromState := parts.headD ""
    let rest := parts.tail
    let toState := rest.getLast?.getD ""
    let symbols := rest.dropLast
    addTrans tbl fromState (String.intercalate "," symbols) toState) []

/-- JS object property access `transitions[s1]`. -/
def lookupFrom : Transitions → String → Option (List (String × List String))
  | [], _ => none
  | e :: rest, s => if e.1 == s then some e.2 else lookupFrom rest s

/-- Lexicographic `≤` on character lists, comparing code points (the JS
default sort comparison on the comma-free symbol tokens that occur here). -/
def charListLe : List Char → List Char → Bool
  | [], _ => true
  | _ :: _, [] => false
  | a :: as, b :: bs =>
    if a.toNat < b.toNat then true
    else if b.toNat < a.toNat then false
    else charListLe as bs

/-- Lexicographic `≤` on strings. -/
def strLe (a b : String) : Bool :=
  charListLe a.data b.data

/-- Insertion of one string into a `strLe`-sorted list. -/
def insertSorted (x : String) : List String → List String
  | [] => [x]
  | y :: ys => if strLe x y then x :: y :: ys else y :: insertSorted x ys

/-- JS `Array.prototype.sort()` on symbol strings (insertion sort; the result
is the unique `strLe`-sorted rearrangement of the input). -/
def sortStrings (l : List String) : List String :=
  l.foldr insertSorted []

/-- `checkTransition` (lines 265-277): the sorted flattened list of symbols
labelling transitions from `s1` to `s2`, or `none` when there are none. -/
def checkTransition (ts : Transitions) (s1 s2 : String) : Option (List String) :=
  let keys : List String :=
    match lookupFrom ts s1 with
    | none => []
    | some inner => inner.foldl (fun acc se => if se.2.contains s2 then acc ++ [se.1] else acc) []
  let syms := (keys.map splitComma).flatten
  if syms.length > 0 then some (sortStrings syms) else none

/-- `checkConnection` (lines 279-286): 2 for mutual, 1 for one-way, 0 for
unconnected. -/
def checkConnection (ts : Transitions) (a b : String) : Nat :=
  if (checkTransition ts a b).isSome && (checkTransition ts b a).isSome then 2
  else if (checkTransition ts a b).isSome || (checkTransition ts b a).isSome then 1
  else 0

/-! ## Edge router -/

/-- First index of `s` in a row (JS `row.indexOf`, with the running counter
`j`). -/
def findPosRow (s : String) : Nat → List (Option String) → Option Nat
  | _, [] => none
  | j, c :: rest => if c == some s then some j else findPosRow s (j + 1) rest

/-- The inner `findPosition` of `doesLineCrossOtherElements` (lines 318-327):
first row-major occurrence. -/
def findPositionAux (e : String) : Nat → Grid → Option (Nat × Nat)
  | _, [] => none
  | i, row :: rest =>
    match findPosRow e 0 row with
    | some j => some (i, j)
    | none => findPositionAux e (i + 1) rest

/-- First row-major position of a state in the grid. -/
def findPosition (g : Grid) (e : String) : Option (Nat × Nat) :=
  findPositionAux e 0 g

/-- The per-cell test of `doesLineCrossOtherElements` (lines 340-351): the
cell is neither endpoint, is collinear with the segment, and lies inside its
bounding box. -/
def crossCellTest (x1 y1 x2 y2 i j : Nat) : Bool :=
  (!(((i == x1) && (j == y1)) || ((i == x2) && (j == y2)))) &&
  (((x2 : Int) - (x1 : Int)) * ((j : Int) - (y1 : Int)) ==
    ((y2 : Int) - (y1 : Int)) * ((i : Int) - (x1 : Int))) &&
  (decide (min x1 x2 ≤ i) && decide (i ≤ max x1 x2) &&
   decide (min y1 y2 ≤ j) && decide (j ≤ max y1 y2))

/-- Iterate a cell predicate (receiving coordinates and the cell's content)
over one row. -/
def anyRowAux (f : Nat → Nat → Option String → Bool) (i : Nat) :
    Nat → List (Option String) → Bool
  | _, [] => false
  | j, c :: rest => f i j c || anyRowAux f i (j + 1) rest

/-- Iterate a cell predicate over the whole grid, row-major. -/
def anyCellAux (f : Nat → Nat → Option String → Bool) : Nat → Grid → Bool
  | _, [] => false
  | i, row :: rest => anyRowAux f i 0 row || anyCellAux f (i + 1) rest

/-- `doesLineCrossOtherElements` (lines 317-355): note that the loop tests
EVERY cell coordinate, occupied or not. -/
def doesLineCrossOtherElements (g : Grid) (e1 e2 : String) : Bool :=
  match findPosition g e1, findPosition g e2 with
  | some p1, some p2 =>
    anyCellAux (fun i j _ => crossCellTest p1.1 p1.2 p2.1 p2.2 i j) 0 g
  | _, _ => false

/-- The test the SPEC describes (§4.4): the segment passes through another
OCCUPIED cell's grid coordinates.  This is the spec-worded counterpart of
`doesLineCrossOtherElements`, used to compare the two on reachable grids. -/
def specCrossesOccupied (g : Grid) (e1 e2 : String) : Bool :=
  match findPosition g e1, findPosition g e2 with
  | some p1, some p2 =>
    anyCellAux (fun i j c => c.isSome && crossCellTest p1.1 p1.2 p2.1 p2.2 i j) 0 g
  | _, _ => false

/-- JS `grid[x][y] === null` (undefined, i.e. out of bounds, is NOT null). -/
def isNullCell (g : Grid) (i j : Nat) : Bool :=
  match g.get? i with
  | some row =>
    match row.get? j with
    | some none => true
    | _ => false
  | none => false

/-- The four free-side checks of `getEdge` (lines 293-311) at a matching
cell; `none` means no free side here and the scan continues. -/
def getEdgeCell (g : Grid) (rowLen i j : Nat) : Option String :=
  if (i == 0) || isNullCell g (i - 1) j then some "above"
  else if (i == g.length - 1) || isNullCell g (i + 1) j then some "below"
  else if (j == 0) || isNullCell g i (j - 1) then some "left"
  else if (j == rowLen - 1) || isNullCell g i (j + 1) then some "right"
  else none

/-- Scan of one row by `getEdge`. -/
def getEdgeRowAux (g : Grid) (item : String) (rowLen i : Nat) :
    Nat → List (Option String) → Option String
  | _, [] => none
  | j, c :: rest =>
    if c == some item then
      match getEdgeCell g rowLen i j with
      | some side => some side
      | none => getEdgeRowAux g item rowLen i (j + 1) rest
    else getEdgeRowAux g item rowLen i (j + 1) rest

/-- Scan of the grid by `getEdge`. -/
def getEdgeAux (g : Grid) (item : String) : Nat → Grid → Option String
  | _, [] => none
  | i, row :: rest =>
    match getEdgeRowAux g item row.length i 0 row with
    | some side => some side
    | none => getEdgeAux g item (i + 1) rest

/-- `getEdge` (lines 288-315): the free side of the state's cell, in priority
order above, below, left, right; `none` if the state is interior (or absent). -/
def getEdge (g : Grid) (item : String) : Option String :=
  getEdgeAux g item 0 g

/-- The `reduce`-based position of `bendDirection` (lines 123-139): the LAST
row containing the state, with the first column index inside that row;
`(-1, -1)` when absent. -/
def bdPosAux (s : String) : Nat → Grid → Int × Int → Int × Int
  | _, [], acc => acc
  | i, row :: rest, acc =>
    bdPosAux s (i + 1) rest
      (match findPosRow s 0 row with
       | some j => ((i : Int), (j : Int))
       | none => acc)

/-- Position used by `bendDirection`. -/
def bdPos (g : Grid) (s : String) : Int × Int :=
  bdPosAux s 0 g (-1, -1)

/-- `bendDirection` (lines 122-150): (bend direction, label anchor).  The
`grid[0].length` access in the fourth branch is modelled with `headD []`;
that branch is unreachable when the grid is empty because the second branch
already fires (both rows are `-1 = length - 1`). -/
def bendDirection (fromState toState : String) (g : Grid) : String × String :=
  let fp := bdPos g fromState
  let tp := bdPos g toState
  if fp.1 == tp.1 && fp.1 == 0 then
    (if fp.2 < tp.2 then ("left", "above") else ("right", "above"))
  else if fp.1 == tp.1 && fp.1 == (g.length : Int) - 1 then
    (if fp.2 < tp.2 then ("right", "below") else ("left", "below"))
  else if fp.2 == tp.2 && fp.2 == 0 then
    (if fp.1 < tp.1 then ("right", "right") else ("left", "left"))
  else if fp.2 == tp.2 && fp.2 == ((g.headD []).length : Int) - 1 then
    (if fp.1 < tp.1 then ("left", "right") else ("right", "left"))
  else
    (if fp.2 < tp.2 then ("right", "right") else ("left", "left"))

/-- `formatSymbol` (lines 152-159). -/
def formatSymbol (symbol style : String) : String :=
  if style == "italic" then "$" ++ symbol ++ "$"
  else if style == "mono" then "\\texttt\x7b" ++ symbol ++ "\x7d"
  else symbol

/-- The label text of an edge: symbols formatted and joined with `", "`
(the `.map(formatSymbol).join(', ')` of the emission loop). -/
def labelOf (syms : List String) (style : String) : String :=
  String.intercalate ", " (syms.map (fun s => formatSymbol s style))

/-! ## Diagram emitter -/

/-- One emitted node declaration: name, initial/accepting flags, and the
relative anchor (`some ("below", ref)` / `some ("right", ref)` / `none` for
an absolutely placed node). -/
structure NodeDecl where
  name : String
  isInitial : Bool
  isAccepting : Bool
  anchor : Option (String × String)
deriving DecidableEq

/-- Node emission for the cells of one row (lines 441-463): `prf` is
`previousRowFirstState`, `prev` is `previousState`; returns the updated
`previousRowFirstState` and the declarations of the row. -/
def genNodesRow (init : String) (accL : List String) (rowIndex : Nat) :
    Nat → Option String → Option String → List (Option String) →
    Option String × List NodeDecl
  | _, prf, _, [] => (prf, [])
  | colIndex, prf, prev, none :: rest => genNodesRow init accL rowIndex (colIndex + 1) prf prev rest
  | colIndex, prf, prev, some s :: rest =>
    if colIndex == 0 && decide (0 < rowIndex) && prf.isSome then
      let d : NodeDecl := ⟨s, s == init, accL.contains s, some ("below", prf.getD "")⟩
      let r := genNodesRow init accL rowIndex (colIndex + 1) (some s) (some s) rest
      (r.1, d :: r.2)
    else if decide (0 < colIndex) && prev.isSome then
      let d : NodeDecl := ⟨s, s == init, accL.contains s, some ("right", prev.getD "")⟩
      let r := genNodesRow init accL rowIndex (colIndex + 1) prf (some s) rest
      (r.1, d :: r.2)
    else
      let d : NodeDecl := ⟨s, s == init, accL.contains s, none⟩
      let r := genNodesRow init accL rowIndex (colIndex + 1) (some s) (some s) rest
      (r.1, d :: r.2)

/-- Node emission over the rows of the grid. -/
def genNodesAux (init : String) (accL : List String) :
    Nat → Option String → Grid → List NodeDecl
  | _, _, [] => []
  | rowIndex, prf, row :: rest =>
    let r := genNodesRow init accL rowIndex 0 prf none row
    r.2 ++ genNodesAux init accL (rowIndex + 1) r.1 rest

/-- The node declarations emitted by `generate` (lines 440-463) for a grid. -/
def genNodes (g : Grid) (init : String) (accL : List String) : List NodeDecl :=
  genNodesAux init accL 0 none g

/-- One emitted edge declaration. -/
inductive Edge where
  | loop (s : String) (side : String) (label : String)
  | straight (a b : String) (label : String)
  | bent (a b : String) (dir : String) (anchor : String) (label : String)
deriving DecidableEq

/-- Source state of an edge. -/
def Edge.src : Edge → String
  | .loop s _ _ => s
  | .straight a _ _ => a
  | .bent a _ _ _ _ => a

/-- Destination state of an edge. -/
def Edge.dst : Edge → String
  | .loop s _ _ => s
  | .straight _ b _ => b
  | .bent _ b _ _ _ => b

/-- Label text of an edge. -/
def Edge.labelText : Edge → String
  | .loop _ _ l => l
  | .straight _ _ l => l
  | .bent _ _ _ _ l => l

/-- Whether the edge is a self-loop declaration. -/
def Edge.isLoop : Edge → Bool
  | .loop _ _ _ => true
  | _ => false

/-- The mutable `bendDirectionArray`, as an association list over ordered
index pairs; absent keys read as the initial `''`. -/
def arrGet (arr : List ((Nat × Nat) × String)) (k : Nat × Nat) : String :=
  match arr.lookup k with
  | some v => v
  | none => ""

/-- Write one entry of the bend-direction array. -/
def arrSet (arr : List ((Nat × Nat) × String)) (k : Nat × Nat) (v : String) :
    List ((Nat × Nat) × String) :=
  (k, v) :: arr

/-- `statesArray[i]` (in-bounds whenever `i < length`). -/
def stateAt (ss : List String) (i : Nat) : String :=
  (ss.get? i).getD ""

/-- The nested `forEach` index pairs of the edge-emission loop
(lines 466-486), in iteration order. -/
def pairsIdx (n : Nat) : List (Nat × Nat) :=
  (List.range n).flatMap (fun i => (List.range n).map (fun j => (i, j)))

/-- The straight-edge condition of the emission loop (line 475):
`!doesLineCrossOtherElements(...) && checkConnection(...) === 1`. -/
def straightCond (ts : Transitions) (g : Grid) (a b : String) : Bool :=
  !(doesLineCrossOtherElements g a b) && (checkConnection ts a b == 1)

/-- One iteration of the edge-emission loop (lines 468-485): self-loops, then
straight edges (`!doesLineCross && connection === 1`), else bent edges using
the shared `bendDirectionArray`. -/
def edgeStep (ts : Transitions) (g : Grid) (style : String) (ss : List String)
    (st : List ((Nat × Nat) × String) × List Edge) (ij : Nat × Nat) :
    List ((Nat × Nat) × String) × List Edge :=
  let a := stateAt ss ij.1
  let b := stateAt ss ij.2
  if a == b then
    match checkTransition ts a b with
    | some syms =>
      (st.1, st.2 ++ [Edge.loop a ((getEdge g a).getD "below") (labelOf syms style)])
    | none => st
  else
    match checkTransition ts a b with
    | none => st
    | some syms =>
      if straightCond ts g a b then
        (st.1, st.2 ++ [Edge.straight a b (labelOf syms style)])
      else
        let cur := arrGet st.1 (ij.1, ij.2)
        let bD := if cur == "" then (bendDirection a b g).1 else cur
        (arrSet (arrSet st.1 (ij.1, ij.2) bD) (ij.2, ij.1) bD,
         st.2 ++ [Edge.bent a b bD (bendDirection a b g).2 (labelOf syms style)])

/-- The edge declarations emitted by `generate` (lines 465-486). -/
def genEdges (ts : Transitions) (g : Grid) (style : String) (ss : List String) : List Edge :=
  ((pairsIdx ss.length).foldl (edgeStep ts g style ss) ([], [])).2

/-- Invariant of the search fold: any tracked best entry is a placed,
filter-passing candidate together with its exact cost. -/
def SearchInv (ss : List String) (init : String) (accL : List String) (ts : Transitions)
    (a2r : Bool) (b : Option (Grid × Nat)) : Prop :=
  ∀ g m, b = some (g, m) →
    m = gridCost ts g ∧
    ∃ r c p, (r, c) ∈ getPossibleGridSizes ss.length ∧ p ∈ getPermutations ss ∧
      g = placeGrid r c p ∧ passes init accL a2r g = true

/-- Structural property of every grid the search can return: rows have
uniform length `C` and the only possibly-null cell is the bottom-right
corner. -/
def GoodGrid (g : Grid) (C : Nat) : Prop :=
  (∀ row ∈ g, row.length = C) ∧
  ∀ i j row, g.get? i = some row → row.get? j = some none →
    i + 1 = g.length ∧ j + 1 = C

/-- Properties every emitted edge has by construction of the emission loop. -/
def EdgeOk (ts : Transitions) (g : Grid) (style : String) : Edge → Prop
  | .loop s side lab => ∃ syms, checkTransition ts s s = some syms ∧
      lab = labelOf syms style ∧ side = (getEdge g s).getD "below"
  | .straight a b lab => a ≠ b ∧ ∃ syms, checkTransition ts a b = some syms ∧
      lab = labelOf syms style ∧ straightCond ts g a b = true
  | .bent a b _ anc lab => a ≠ b ∧ ∃ syms, checkTransition ts a b = some syms ∧
      lab = labelOf syms style ∧ straightCond ts g a b = false ∧
      anc = (bendDirection a b g).2

/-- Invariant of the edge-emission fold for C6: the bend array is symmetric
and records the direction of every emitted bent edge at the index pair of its
endpoints, and recorded directions are never the empty sentinel. -/
def BentInv (ss : List String) (st : List ((Nat × Nat) × String) × List Edge) : Prop :=
  (∀ k1 k2 : Nat, arrGet st.1 (k1, k2) = arrGet st.1 (k2, k1)) ∧
  ∀ a b d anc lab, Edge.bent a b d anc lab ∈ st.2 →
    arrGet st.1 (ss.indexOf a, ss.indexOf b) = d ∧ d ≠ ""

/-! ## Lemmas: permutations and grid shapes -/

theorem removeAt_length {l : List String} {i : Nat} (h : i < l.length) :
    (removeAt l i).length = l.length - 1 := by
  simp only [removeAt, List.length_append, List.length_take, List.length_drop]
  omega

theorem perm_cons_removeAt (l : List String) (i : Nat) (h : i < l.length) :
    l.Perm (l[i] :: removeAt l i) := by
  have h1 : l = l.take i ++ l[i] :: l.drop (i + 1) := by
    conv_lhs => rw [← List.take_append_drop i l, List.drop_eq_getElem_cons h]
  rw [removeAt]
  conv_lhs => rw [h1]
  exact List.perm_middle

theorem perm_of_mem_getPermsAux :
    ∀ (fuel : Nat) (l p : List String), l.length ≤ fuel →
      p ∈ getPermsAux fuel l → p.Perm l := by
  intro fuel
  induction fuel with
  | zero =>
    intro l p hl hp
    match l with
    | [] =>
      simp only [getPermsAux, List.mem_singleton] at hp
      subst hp; exact List.Perm.refl _
    | _ :: _ => simp at hl
  | succ fuel ih =>
    intro l p hl hp
    match l with
    | [] =>
      simp only [getPermsAux, List.mem_singleton] at hp
      subst hp; exact List.Perm.refl _
    | x :: xs =>
      simp only [getPermsAux, List.mem_flatMap, List.mem_map, List.mem_range] at hp
      obtain ⟨i, hi, q, hq, rfl⟩ := hp
      have hlen : (removeAt (x :: xs) i).length ≤ fuel := by
        rw [removeAt_length hi]
        simp only [List.length_cons] at hl ⊢
        omega
      have hperm := ih _ _ hlen hq
      have hget : (((x :: xs).get? i).getD "") = (x :: xs)[i] := by
        rw [List.get?_eq_getElem? , List.getElem?_eq_getElem hi]
        rfl
      rw [hget]
      exact ((hperm.cons _).trans (perm_cons_removeAt _ i hi).symm)

theorem perm_of_mem_getPermutations {l p : List String}
    (hp : p ∈ getPermutations l) : p.Perm l :=
  perm_of_mem_getPermsAux l.length l p (Nat.le_refl _) hp

theorem length_of_mem_getPermutations {l p : List String}
    (hp : p ∈ getPermutations l) : p.length = l.length :=
  (perm_of_mem_getPermutations hp).length_eq

theorem mem_getPossibleGridSizes {n r c : Nat}
    (h : (r, c) ∈ getPossibleGridSizes n) :
    1 ≤ r ∧ 1 ≤ c ∧ (r * c = n ∨ r * c = n + 1) := by
  simp only [getPossibleGridSizes, List.mem_flatMap, List.mem_filterMap] at h
  obtain ⟨rows, hrows, cols, hcols, hif⟩ := h
  by_cases hcond : rows * cols = n ∨ rows * cols = n + 1
  · rw [if_pos hcond] at hif
    injection hif with hif
    injection hif with hr hc
    subst hr; subst hc
    have h1 := List.mem_range'_1.mp hrows
    have h2 := List.mem_range'_1.mp hcols
    exact ⟨h1.1, h2.1, hcond⟩
  · rw [if_neg hcond] at hif
    exact absurd hif (by simp)

theorem mem_candList {ss : List String} {r c : Nat} {p : List String}
    (h : (r, c, p) ∈ candList ss) :
    (r, c) ∈ getPossibleGridSizes ss.length ∧ p ∈ getPermutations ss := by
  simp only [candList, List.mem_flatMap, List.mem_map] at h
  obtain ⟨rc, hrc, q, hq, heq⟩ := h
  injection heq with h1 h2
  injection h2 with h2 h3
  subst h3
  have : rc = (r, c) := by
    cases rc
    simp only at h1 h2
    subst h1; subst h2; rfl
  exact ⟨this ▸ hrc, hq⟩

theorem mem_candList_intro {ss : List String} {r c : Nat} {p : List String}
    (h1 : (r, c) ∈ getPossibleGridSizes ss.length)
    (h2 : p ∈ getPermutations ss) : (r, c, p) ∈ candList ss := by
  simp only [candList, List.mem_flatMap, List.mem_map]
  exact ⟨(r, c), h1, p, h2, rfl⟩

/-! ## Lemmas: structure of placed grids -/

theorem placeGrid_length (r c : Nat) (p : List String) :
    (placeGrid r c p).length = r := by
  simp [placeGrid]

theorem placeRow_length (p : List String) (c i : Nat) :
    (placeRow p c i).length = c := by
  simp [placeRow]

theorem placeGrid_succ (r c : Nat) (p : List String) :
    placeGrid (r + 1) c p = placeGrid r c p ++ [placeRow p c r] := by
  rw [placeGrid, placeGrid, List.range_succ, List.map_append, List.map_singleton]

theorem placeRow_any_isSome {p : List String} {c i : Nat}
    (hc : 1 ≤ c) (h : i * c < p.length) :
    (placeRow p c i).any (fun cell => cell.isSome) = true := by
  rw [List.any_eq_true]
  refine ⟨p.get? (i * c + 0), ?_, ?_⟩
  · rw [placeRow, List.mem_map]
    exact ⟨0, List.mem_range.mpr hc, rfl⟩
  · have h0 : i * c + 0 < p.length := by omega
    rw [List.get?_eq_getElem?, List.getElem?_eq_getElem h0]
    rfl

theorem placeRow_all_none {p : List String} {c i : Nat}
    (h : p.length ≤ i * c) :
    (placeRow p c i).any (fun cell => cell.isSome) = false := by
  rw [List.any_eq_false]
  intro x hx
  rw [placeRow, List.mem_map] at hx
  obtain ⟨j, _, rfl⟩ := hx
  have hge : p.length ≤ i * c + j := le_trans h (Nat.le_add_right _ _)
  rw [List.get?_eq_getElem?, List.getElem?_eq_none hge]
  simp

theorem mem_placeGrid {r c : Nat} {p : List String} {row : List (Option String)}
    (h : row ∈ placeGrid r c p) : ∃ i, i < r ∧ row = placeRow p c i := by
  rw [placeGrid, List.mem_map] at h
  obtain ⟨i, hi, rfl⟩ := h
  exact ⟨i, List.mem_range.mp hi, rfl⟩

theorem trimGrid_placeGrid {r c : Nat} {p : List String}
    (hc : 1 ≤ c) (h2 : p.length ≤ r * c) (h3 : r * c ≤ p.length + 1) :
    trimGrid (placeGrid r c p) = placeGrid r c p ∨
    (c = 1 ∧ r = p.length + 1 ∧
      trimGrid (placeGrid r c p) = placeGrid p.length 1 p) := by
  by_cases hcase : r * c = p.length + 1 ∧ c = 1
  · right
    obtain ⟨hrc, rfl⟩ := hcase
    have hr : r = p.length + 1 := by omega
    subst hr
    refine ⟨rfl, rfl, ?_⟩
    unfold trimGrid
    rw [placeGrid_succ, List.filter_append]
    have hfirst : (placeGrid p.length 1 p).filter (fun row => row.any (fun cell => cell.isSome)) =
        placeGrid p.length 1 p := by
      rw [List.filter_eq_self]
      intro row hrow
      obtain ⟨i, hi, rfl⟩ := mem_placeGrid hrow
      exact placeRow_any_isSome (Nat.le_refl 1) (by omega)
    have hlast : ([placeRow p 1 p.length] : Grid).filter
        (fun row => row.any (fun cell => cell.isSome)) = [] := by
      rw [List.filter_cons, placeRow_all_none (by omega)]
      rfl
    rw [hfirst, hlast, List.append_nil]
  · left
    rw [trimGrid, List.filter_eq_self]
    intro row hrow
    obtain ⟨i, hi, rfl⟩ := mem_placeGrid hrow
    apply placeRow_any_isSome hc
    have hmul : (i + 1) * c ≤ r * c := Nat.mul_le_mul_right c hi
    rw [Nat.succ_mul] at hmul
    have hor : r * c = p.length ∨ r * c = p.length + 1 := by omega
    rcases hor with h | h
    · omega
    · have hc2 : 2 ≤ c := by
        rcases Nat.lt_or_ge c 2 with hlt | hge
        · exact absurd ⟨h, by omega⟩ hcase
        · exact hge
      omega

theorem gridPositionsAux_append (A B : Grid) :
    ∀ i, gridPositionsAux i (A ++ B) = gridPositionsAux i A ++ gridPositionsAux (i + A.length) B := by
  induction A with
  | nil => intro i; simp [gridPositionsAux]
  | cons row rest ih =>
    intro i
    rw [List.cons_append]
    rw [show gridPositionsAux i (row :: (rest ++ B)) =
        rowPositionsAux i 0 row ++ gridPositionsAux (i + 1) (rest ++ B) from rfl]
    rw [show gridPositionsAux i (row :: rest) =
        rowPositionsAux i 0 row ++ gridPositionsAux (i + 1) rest from rfl]
    rw [ih (i + 1), List.append_assoc]
    have harith : i + 1 + rest.length = i + (row :: rest).length := by
      rw [List.length_cons]; omega
    rw [harith]

theorem rowPositionsAux_all_none {row : List (Option String)}
    (h : ∀ x ∈ row, x = none) : ∀ i j, rowPositionsAux i j row = [] := by
  induction row with
  | nil => intro i j; rfl
  | cons x rest ih =>
    intro i j
    have hx : x = none := h x (List.mem_cons_self _ _)
    subst hx
    rw [rowPositionsAux]
    exact ih (fun y hy => h y (List.mem_cons_of_mem _ hy)) i (j + 1)

theorem gridPositions_trim_placeGrid {r c : Nat} {p : List String}
    (hc : 1 ≤ c) (h2 : p.length ≤ r * c) (h3 : r * c ≤ p.length + 1) :
    gridPositions (trimGrid (placeGrid r c p)) = gridPositions (placeGrid r c p) := by
  rcases trimGrid_placeGrid hc h2 h3 with h | ⟨hc1, hr, h⟩
  · rw [h]
  · rw [h]
    subst hc1; subst hr
    rw [show placeGrid (p.length + 1) 1 p = placeGrid p.length 1 p ++ [placeRow p 1 p.length] from
      placeGrid_succ p.length 1 p]
    rw [gridPositions, gridPositions, gridPositionsAux_append]
    have hnone : ∀ x ∈ placeRow p 1 p.length, x = none := by
      intro x hx
      rw [placeRow, List.mem_map] at hx
      obtain ⟨j, _, rfl⟩ := hx
      rw [List.get?_eq_getElem?, List.getElem?_eq_none (by omega)]
    rw [show gridPositionsAux (0 + (placeGrid p.length 1 p).length) [placeRow p 1 p.length] =
        rowPositionsAux (0 + (placeGrid p.length 1 p).length) 0 (placeRow p 1 p.length) ++ [] from rfl]
    rw [rowPositionsAux_all_none hnone, List.append_nil, List.append_nil]

theorem gridCost_trim_placeGrid {r c : Nat} {p : List String} (ts : Transitions)
    (hc : 1 ≤ c) (h2 : p.length ≤ r * c) (h3 : r * c ≤ p.length + 1) :
    gridCost ts (trimGrid (placeGrid r c p)) = gridCost ts (placeGrid r c p) := by
  rw [gridCost, gridCost, gridPositions_trim_placeGrid hc h2 h3]

/-! ## Lemmas: the search fold -/

theorem searchStep_eq_none (init : String) (accL : List String) (ts : Transitions) (a2r : Bool)
    (cand : Nat × Nat × List String) :
    searchStep init accL ts a2r none cand =
      if passes init accL a2r (placeGrid cand.1 cand.2.1 cand.2.2) then
        some (placeGrid cand.1 cand.2.1 cand.2.2,
          gridCost ts (placeGrid cand.1 cand.2.1 cand.2.2))
      else none := rfl

theorem searchStep_eq_some (init : String) (accL : List String) (ts : Transitions) (a2r : Bool)
    (g0 : Grid) (m0 : Nat) (cand : Nat × Nat × List String) :
    searchStep init accL ts a2r (some (g0, m0)) cand =
      if passes init accL a2r (placeGrid cand.1 cand.2.1 cand.2.2) then
        (if gridCost ts (placeGrid cand.1 cand.2.1 cand.2.2) < m0
         then some (placeGrid cand.1 cand.2.1 cand.2.2,
             gridCost ts (placeGrid cand.1 cand.2.1 cand.2.2))
         else some (g0, m0))
      else some (g0, m0) := rfl

theorem searchStep_from_some (init : String) (accL : List String) (ts : Transitions)
    (a2r : Bool) (g0 : Grid) (m0 : Nat) (cand : Nat × Nat × List String) :
    ∃ g1 m1, searchStep init accL ts a2r (some (g0, m0)) cand = some (g1, m1) ∧ m1 ≤ m0 := by
  rw [searchStep_eq_some]
  by_cases hpass : passes init accL a2r (placeGrid cand.1 cand.2.1 cand.2.2) = true
  · rw [if_pos hpass]
    by_cases hlt : gridCost ts (placeGrid cand.1 cand.2.1 cand.2.2) < m0
    · exact ⟨_, _, by rw [if_pos hlt], Nat.le_of_lt hlt⟩
    · exact ⟨g0, m0, by rw [if_neg hlt], Nat.le_refl m0⟩
  · rw [if_neg hpass]
    exact ⟨g0, m0, rfl, Nat.le_refl m0⟩

theorem foldl_searchStep_from_some (init : String) (accL : List String) (ts : Transitions)
    (a2r : Bool) :
    ∀ (L : List (Nat × Nat × List String)) (g0 : Grid) (m0 : Nat),
      ∃ g1 m1, L.foldl (searchStep init accL ts a2r) (some (g0, m0)) = some (g1, m1) ∧ m1 ≤ m0 := by
  intro L
  induction L with
  | nil => intro g0 m0; exact ⟨g0, m0, rfl, Nat.le_refl m0⟩
  | cons cd L ih =>
    intro g0 m0
    obtain ⟨g', m', hstep, hle'⟩ := searchStep_from_some init accL ts a2r g0 m0 cd
    obtain ⟨g1, m1, hfold, hle⟩ := ih g' m'
    exact ⟨g1, m1, by rw [List.foldl_cons, hstep, hfold], Nat.le_trans hle hle'⟩

theorem foldl_searchStep_min (init : String) (accL : List String) (ts : Transitions)
    (a2r : Bool) :
    ∀ (L : List (Nat × Nat × List String)) (b0 : Option (Grid × Nat))
      (cand : Nat × Nat × List String), cand ∈ L →
      passes init accL a2r (placeGrid cand.1 cand.2.1 cand.2.2) = true →
      ∃ g1 m1, L.foldl (searchStep init accL ts a2r) b0 = some (g1, m1) ∧
        m1 ≤ gridCost ts (placeGrid cand.1 cand.2.1 cand.2.2) := by
  intro L
  induction L with
  | nil => intro b0 cand hmem; exact absurd hmem (List.not_mem_nil cand)
  | cons cd L ih =>
    intro b0 cand hmem hpass
    rcases List.mem_cons.mp hmem with heq | hmem'
    · subst heq
      have hb1 : ∃ g' m', searchStep init accL ts a2r b0 cand = some (g', m') ∧
          m' ≤ gridCost ts (placeGrid cand.1 cand.2.1 cand.2.2) := by
        cases b0 with
        | none =>
          rw [searchStep_eq_none, if_pos hpass]
          exact ⟨_, _, rfl, Nat.le_refl _⟩
        | some bm =>
          cases bm with
          | mk bg mc =>
            rw [searchStep_eq_some, if_pos hpass]
            by_cases hlt : gridCost ts (placeGrid cand.1 cand.2.1 cand.2.2) < mc
            · exact ⟨_, _, by rw [if_pos hlt], Nat.le_refl _⟩
            · exact ⟨bg, mc, by rw [if_neg hlt], Nat.le_of_not_lt hlt⟩
      obtain ⟨g', m', hb1eq, hb1le⟩ := hb1
      obtain ⟨g1, m1, hfold, hle⟩ := foldl_searchStep_from_some init accL ts a2r L g' m'
      exact ⟨g1, m1, by rw [List.foldl_cons, hb1eq, hfold], Nat.le_trans hle hb1le⟩
    · obtain ⟨g1, m1, hfold, hle⟩ := ih (searchStep init accL ts a2r b0 cd) cand hmem' hpass
      exact ⟨g1, m1, by rw [List.foldl_cons, hfold], hle⟩


theorem searchStep_inv {ss : List String} {init : String} {accL : List String}
    {ts : Transitions} {a2r : Bool} {b : Option (Grid × Nat)}
    {cand : Nat × Nat × List String}
    (hcand : cand ∈ candList ss) (hinv : SearchInv ss init accL ts a2r b) :
    SearchInv ss init accL ts a2r (searchStep init accL ts a2r b cand) := by
  intro g m heq
  have hparts : (cand.1, cand.2.1, cand.2.2) ∈ candList ss := by
    cases cand with
    | mk r rest => cases rest with
      | mk c p => exact hcand
  obtain ⟨hrc, hp⟩ := mem_candList hparts
  by_cases hpass : passes init accL a2r (placeGrid cand.1 cand.2.1 cand.2.2) = true
  · cases b with
    | none =>
      rw [searchStep_eq_none, if_pos hpass] at heq
      injection heq with heq
      injection heq with h1 h2
      subst h1; subst h2
      exact ⟨rfl, cand.1, cand.2.1, cand.2.2, hrc, hp, rfl, hpass⟩
    | some bm =>
      cases bm with
      | mk bg mc =>
        rw [searchStep_eq_some, if_pos hpass] at heq
        by_cases hlt : gridCost ts (placeGrid cand.1 cand.2.1 cand.2.2) < mc
        · rw [if_pos hlt] at heq
          injection heq with heq
          injection heq with h1 h2
          subst h1; subst h2
          exact ⟨rfl, cand.1, cand.2.1, cand.2.2, hrc, hp, rfl, hpass⟩
        · rw [if_neg hlt] at heq
          injection heq with heq
          injection heq with h1 h2
          subst h1; subst h2
          exact hinv bg mc rfl
  · cases b with
    | none =>
      rw [searchStep_eq_none, if_neg hpass] at heq
      exact absurd heq (by simp)
    | some bm =>
      cases bm with
      | mk bg mc =>
        rw [searchStep_eq_some, if_neg hpass] at heq
        injection heq with heq
        injection heq with h1 h2
        subst h1; subst h2
        exact hinv bg mc rfl

theorem foldl_searchStep_inv {ss : List String} {init : String} {accL : List String}
    {ts : Transitions} {a2r : Bool} :
    ∀ (L : List (Nat × Nat × List String)) (b0 : Option (Grid × Nat)),
      (∀ cd ∈ L, cd ∈ candList ss) → SearchInv ss init accL ts a2r b0 →
      SearchInv ss init accL ts a2r (L.foldl (searchStep init accL ts a2r) b0) := by
  intro L
  induction L with
  | nil => intro b0 _ hinv; exact hinv
  | cons cd L ih =>
    intro b0 hall hinv
    rw [List.foldl_cons]
    exact ih _ (fun x hx => hall x (List.mem_cons_of_mem _ hx))
      (searchStep_inv (hall cd (List.mem_cons_self _ _)) hinv)

/-- Either the search finds nothing (empty grid), or the result is the trim of
a placed, filter-passing candidate. -/
theorem findOptimal_cases (ss : List String) (init : String) (accL : List String)
    (ts : Transitions) (a2r : Bool) :
    findOptimalStatePlacement ss init accL ts a2r = [] ∨
    ∃ r c p, (r, c) ∈ getPossibleGridSizes ss.length ∧ p ∈ getPermutations ss ∧
      passes init accL a2r (placeGrid r c p) = true ∧
      findOptimalStatePlacement ss init accL ts a2r = trimGrid (placeGrid r c p) := by
  cases hfold : (candList ss).foldl (searchStep init accL ts a2r) none with
  | none =>
    left
    rw [findOptimalStatePlacement, hfold]
  | some gm =>
    right
    obtain ⟨g1, m1⟩ := gm
    have hinv := @foldl_searchStep_inv ss init accL ts a2r (candList ss) none
      (fun _ hx => hx) (fun g m h => by cases h)
    rw [hfold] at hinv
    obtain ⟨_, r, c, p, hrc, hp, hg, hpass⟩ := hinv g1 m1 rfl
    refine ⟨r, c, p, hrc, hp, hg ▸ hpass, ?_⟩
    rw [findOptimalStatePlacement, hfold, hg]

/-- Minimality of the search result among all filter-passing candidates. -/
theorem findOptimal_min (ss : List String) (init : String) (accL : List String)
    (ts : Transitions) (a2r : Bool) (r c : Nat) (p : List String)
    (hrc : (r, c) ∈ getPossibleGridSizes ss.length)
    (hp : p ∈ getPermutations ss)
    (hpass : passes init accL a2r (placeGrid r c p) = true) :
    gridCost ts (findOptimalStatePlacement ss init accL ts a2r) ≤
      gridCost ts (placeGrid r c p) := by
  have hmem := mem_candList_intro hrc hp
  obtain ⟨g1, m1, hfold, hle⟩ := foldl_searchStep_min init accL ts a2r (candList ss) none
    (r, c, p) hmem hpass
  have hinv := @foldl_searchStep_inv ss init accL ts a2r (candList ss) none
    (fun _ hx => hx) (fun g m h => by cases h)
  rw [hfold] at hinv
  obtain ⟨hcost, r', c', p', hrc', hp', hg, _⟩ := hinv g1 m1 rfl
  rw [findOptimalStatePlacement, hfold]
  show gridCost ts (trimGrid g1) ≤ gridCost ts (placeGrid r c p)
  obtain ⟨h1r, h1c, hprod⟩ := mem_getPossibleGridSizes hrc'
  have hlen := length_of_mem_getPermutations hp'
  have htrim : gridCost ts (trimGrid (placeGrid r' c' p')) = gridCost ts (placeGrid r' c' p') :=
    gridCost_trim_placeGrid ts h1c (by omega) (by omega)
  rw [hg, htrim, ← hg, ← hcost]
  exact hle

theorem initOk_mem {g : Grid} {init : String} (h : initOk g init = true) :
    ∃ row ∈ g, row.head? = some (some init) := by
  rw [initOk, List.any_eq_true] at h
  obtain ⟨row, hrow, hpred⟩ := h
  refine ⟨row, hrow, ?_⟩
  cases hh : row.head? with
  | none => rw [hh] at hpred; simp at hpred
  | some cell =>
    cases cell with
    | none => rw [hh] at hpred; simp at hpred
    | some s =>
      rw [hh] at hpred
      simp only [beq_iff_eq] at hpred
      subst hpred
      rfl

theorem condA_trimGrid {g : Grid} {accL : List String}
    (h : condA g accL = true) : condA (trimGrid g) accL = true := by
  rw [condA, List.all_eq_true] at h ⊢
  intro row hrow
  exact h row (List.mem_filter.mp hrow).1

theorem condB_trimGrid {g : Grid} {accL : List String} {init : String}
    (h : condB g accL init = false) : condB (trimGrid g) accL init = false := by
  rw [condB, List.any_eq_false] at h ⊢
  intro row hrow
  exact h row (List.mem_filter.mp hrow).1

/-! ## Lemmas: counting states in the returned grid -/

theorem placeGrid_flatten (r c : Nat) (p : List String) :
    (placeGrid r c p).flatten = (List.range (r * c)).map (fun k => p.get? k) := by
  induction r with
  | zero => simp [placeGrid]
  | succ r ih =>
    rw [placeGrid_succ, List.flatten_append, ih,
      show (r + 1) * c = r * c + c from by ring, List.range_add, List.map_append]
    simp only [List.flatten_cons, List.flatten_nil, List.append_nil, placeRow, List.map_map]
    rfl

theorem range_map_get? (l : List String) :
    (List.range l.length).map (fun k => l.get? k) = l.map some := by
  induction l with
  | nil => rfl
  | cons x xs ih =>
    rw [List.length_cons, List.range_succ_eq_map, List.map_cons, List.map_map, List.map_cons]
    show (x :: xs).get? 0 :: (List.range xs.length).map ((fun k => (x :: xs).get? k) ∘ Nat.succ) =
      some x :: xs.map some
    rw [show ((fun k => (x :: xs).get? k) ∘ Nat.succ) = (fun k => xs.get? k) from rfl, ih]
    rfl

theorem count_some_map (l : List String) (s : String) :
    (l.map some).count (some s) = l.count s := by
  induction l with
  | nil => rfl
  | cons x xs ih =>
    rw [List.map_cons, List.count_cons, List.count_cons, ih]
    congr 1

theorem count_flatten_placeGrid {r c : Nat} {p : List String}
    (h : p.length ≤ r * c) (s : String) :
    ((placeGrid r c p).flatten).count (some s) = p.count s := by
  rw [placeGrid_flatten]
  rw [show r * c = p.length + (r * c - p.length) from by omega]
  rw [List.range_add, List.map_append, List.count_append, List.map_map]
  have h1 : (List.range p.length).map (fun k => p.get? k) = p.map some := range_map_get? p
  rw [h1]
  have h2 : ((List.range (r * c - p.length)).map
      ((fun k => p.get? k) ∘ (fun x => p.length + x))).count (some s) = 0 := by
    rw [List.count_eq_zero]
    intro hmem
    rw [List.mem_map] at hmem
    obtain ⟨x, _, hx⟩ := hmem
    have : p.get? (p.length + x) = none := by
      rw [List.get?_eq_getElem?, List.getElem?_eq_none (by omega)]
    rw [Function.comp_apply, this] at hx
    exact Option.noConfusion hx
  rw [h2, Nat.add_zero]
  exact count_some_map p s

theorem count_flatten_trimGrid (g : Grid) (x : Option String) (s : String)
    (hx : x = some s) :
    ((trimGrid g).flatten).count x = (g.flatten).count x := by
  induction g with
  | nil => rfl
  | cons row rest ih =>
    show ((List.filter (fun row => row.any (fun cell => cell.isSome)) (row :: rest)).flatten).count x = _
    rw [List.filter_cons]
    by_cases hrow : (row.any (fun cell => cell.isSome)) = true
    · rw [if_pos hrow, List.flatten_cons, List.flatten_cons,
        List.count_append, List.count_append]
      have ih2 : ((List.filter (fun row => row.any (fun cell => cell.isSome)) rest).flatten).count x =
          (rest.flatten).count x := ih
      rw [ih2]
    · rw [if_neg hrow, List.flatten_cons, List.count_append]
      rw [Bool.not_eq_true] at hrow
      have hz : row.count x = 0 := by
        rw [List.count_eq_zero]
        intro hmem
        rw [List.any_eq_false] at hrow
        have hnone := hrow x hmem
        rw [hx] at hnone
        simp at hnone
      rw [hz, Nat.zero_add]
      exact ih

/-! ## Claims about the layout search -/

/-- C1: for every input (states, initial state, accepting states, transitions,
accepting-convention flag), the grid returned by the layout search has
transition cost (sum over every (source, symbol-key, destination) triple of
the Manhattan distance between the grid coordinates of source and
destination) less than or equal to the cost of every other candidate grid
that satisfies the hard placement constraints (initial state in column 0 and,
when enabled, the accepting-convention filter), over all enumerated shapes
and permutations. -/
theorem C1_layout_cost_minimal (ss : List String) (init : String) (accL : List String)
    (ts : Transitions) (a2r : Bool) (r c : Nat) (p : List String)
    (hrc : (r, c) ∈ getPossibleGridSizes ss.length)
    (hp : p ∈ getPermutations ss)
    (hpass : passes init accL a2r (placeGrid r c p) = true) :
    gridCost ts (findOptimalStatePlacement ss init accL ts a2r) ≤
      gridCost ts (placeGrid r c p) :=
  findOptimal_min ss init accL ts a2r r c p hrc hp hpass

/-- Witness for C1 at a concrete input: two states in a column shape. -/
theorem C1_witness :
    gridCost [("q1", [("0", ["q2"])])]
        (findOptimalStatePlacement ["q1", "q2"] "q1" ["q2"] [("q1", [("0", ["q2"])])] true) ≤
      gridCost [("q1", [("0", ["q2"])])] (placeGrid 2 1 ["q1", "q2"]) :=
  C1_layout_cost_minimal ["q1", "q2"] "q1" ["q2"] [("q1", [("0", ["q2"])])] true 2 1
    ["q1", "q2"] (by decide) (by decide) (by decide)

/-- C2 counterexample: with the duplicate state list `["a", "a"]` the search
returns the non-empty grid `[[a, a]]` in which the input state `"a"` occupies
two cells, not exactly one, so the claim fails as stated for arbitrary input
state lists. -/
theorem C2_counterexample :
    findOptimalStatePlacement ["a", "a"] "a" [] [] false ≠ [] ∧
      ((findOptimalStatePlacement ["a", "a"] "a" [] [] false).flatten).count (some "a") = 2 := by
  constructor
  · decide
  · decide

/-- C2 (amended: for duplicate-free input state lists): the grid returned by
`findOptimalStatePlacement` either is empty, or contains every state from the
input state list in exactly one cell. -/
theorem C2_every_state_once (ss : List String) (init : String) (accL : List String)
    (ts : Transitions) (a2r : Bool) (hnd : ss.Nodup) :
    findOptimalStatePlacement ss init accL ts a2r = [] ∨
      ∀ s ∈ ss, ((findOptimalStatePlacement ss init accL ts a2r).flatten).count (some s) = 1 := by
  rcases findOptimal_cases ss init accL ts a2r with he | ⟨r, c, p, hrc, hp, hpass, heq⟩
  · exact Or.inl he
  · right
    intro s hs
    have hperm := perm_of_mem_getPermutations hp
    obtain ⟨h1r, h1c, hprod⟩ := mem_getPossibleGridSizes hrc
    have hlen := hperm.length_eq
    rw [heq, count_flatten_trimGrid _ _ s rfl, count_flatten_placeGrid (by omega) s,
      hperm.count_eq]
    exact List.count_eq_one_of_mem hnd hs

/-- Witness for C2 (amended) at a concrete duplicate-free input. -/
theorem C2_witness :
    findOptimalStatePlacement ["q1", "q2"] "q1" [] [("q1", [("0", ["q2"])])] false = [] ∨
      ∀ s ∈ (["q1", "q2"] : List String),
        ((findOptimalStatePlacement ["q1", "q2"] "q1" [] [("q1", [("0", ["q2"])])] false).flatten).count
          (some s) = 1 :=
  C2_every_state_once ["q1", "q2"] "q1" [] [("q1", [("0", ["q2"])])] false (by decide)

/-- C3 counterexample: with the accepting convention enabled, the winning
permutation of the returned grid `[[q1, q2, q3]]` satisfies the first
condition (every row's rightmost occupied cell, `q3`, is accepting) but
violates the second (the accepting non-initial state `q2` sits in a
non-rightmost occupied position, i.e. `condB` holds); contrary to the claim
it is NOT rejected — it is the returned winner. -/
theorem C3_counterexample :
    findOptimalStatePlacement ["q1", "q2", "q3"] "q1" ["q2", "q3"]
        [("q1", [("x", ["q2"])]), ("q2", [("x", ["q3"])])] true =
      [[some "q1", some "q2", some "q3"]] ∧
      condA [[some "q1", some "q2", some "q3"]] ["q2", "q3"] = true ∧
      condB [[some "q1", some "q2", some "q3"]] ["q2", "q3"] "q1" = true := by
  refine ⟨by decide, by decide, by decide⟩

/-- C3 (amended): with the accepting convention enabled the search skips a
candidate iff the first condition fails AND the second condition holds
(`accReject`); equivalently, every candidate placement whose initial state is
in column 0 and which satisfies the first condition OR fails the second
survives the filters, and therefore bounds the cost of the returned grid. -/
theorem C3_accept_condition (ss : List String) (init : String) (accL : List String)
    (ts : Transitions) (r c : Nat) (p : List String)
    (hrc : (r, c) ∈ getPossibleGridSizes ss.length)
    (hp : p ∈ getPermutations ss)
    (hinit : initOk (placeGrid r c p) init = true)
    (hacc : condA (placeGrid r c p) accL = true ∨
      condB (placeGrid r c p) accL init = false) :
    gridCost ts (findOptimalStatePlacement ss init accL ts true) ≤
      gridCost ts (placeGrid r c p) := by
  apply findOptimal_min ss init accL ts true r c p hrc hp
  unfold passes accReject
  rw [hinit]
  rcases hacc with h | h
  · rw [h]
    rfl
  · rw [h]
    cases condA (placeGrid r c p) accL <;> rfl

/-- Witness for C3 (amended) at a concrete input. -/
theorem C3_witness :
    gridCost [("q1", [("x", ["q2"])]), ("q2", [("x", ["q3"])])]
        (findOptimalStatePlacement ["q1", "q2", "q3"] "q1" ["q2", "q3"]
          [("q1", [("x", ["q2"])]), ("q2", [("x", ["q3"])])] true) ≤
      gridCost [("q1", [("x", ["q2"])]), ("q2", [("x", ["q3"])])]
        (placeGrid 1 3 ["q1", "q2", "q3"]) :=
  C3_accept_condition ["q1", "q2", "q3"] "q1" ["q2", "q3"]
    [("q1", [("x", ["q2"])]), ("q2", [("x", ["q3"])])] 1 3 ["q1", "q2", "q3"]
    (by decide) (by decide) (by decide) (Or.inl (by decide))

/-- C5 counterexample: with the accepting-by-arrow convention DISABLED (the
flag is false) no accepting-placement constraint is applied at all: here the
returned non-empty grid `[[q1, q2]]` has rightmost occupied cell `q2`, which
is not an accepting state (accepting = [q1]), refuting the claim. -/
theorem C5_counterexample :
    findOptimalStatePlacement ["q1", "q2"] "q1" ["q1"] [("q1", [("0", ["q2"])])] false ≠ [] ∧
      condA (findOptimalStatePlacement ["q1", "q2"] "q1" ["q1"]
        [("q1", [("0", ["q2"])])] false) ["q1"] = false := by
  constructor
  · decide
  · decide

/-- C5 (amended): when the accepting-by-arrow convention is ENABLED, every
non-empty grid returned by the layout search satisfies: every row's rightmost
occupied cell is an accepting state (or the row is empty), OR no row contains
a non-initial accepting state in a non-rightmost occupied position (the code
accepts a candidate when either condition holds, so only this disjunction is
guaranteed). -/
theorem C5_rightmost_accepting (ss : List String) (init : String) (accL : List String)
    (ts : Transitions)
    (h : findOptimalStatePlacement ss init accL ts true ≠ []) :
    condA (findOptimalStatePlacement ss init accL ts true) accL = true ∨
      condB (findOptimalStatePlacement ss init accL ts true) accL init = false := by
  rcases findOptimal_cases ss init accL ts true with he | ⟨r, c, p, hrc, hp, hpass, heq⟩
  · exact absurd he h
  · have hrej : accReject (placeGrid r c p) accL init = false := by
      unfold passes at hpass
      have h2 := ((Bool.and_eq_true _ _).mp hpass).2
      cases hr : accReject (placeGrid r c p) accL init
      · rfl
      · rw [hr] at h2
        simp at h2
    unfold accReject at hrej
    rw [heq]
    by_cases hA : condA (placeGrid r c p) accL = true
    · exact Or.inl (condA_trimGrid hA)
    · right
      apply condB_trimGrid
      have hA' : condA (placeGrid r c p) accL = false := by
        cases hca : condA (placeGrid r c p) accL
        · rfl
        · exact absurd hca hA
      rw [hA'] at hrej
      simpa using hrej

/-- Witness for C5 (amended) at a concrete input with the convention on. -/
theorem C5_witness :
    condA (findOptimalStatePlacement ["q1", "q2"] "q1" ["q2"]
        [("q1", [("0", ["q2"])])] true) ["q2"] = true ∨
      condB (findOptimalStatePlacement ["q1", "q2"] "q1" ["q2"]
        [("q1", [("0", ["q2"])])] true) ["q2"] "q1" = false :=
  C5_rightmost_accepting ["q1", "q2"] "q1" ["q2"] [("q1", [("0", ["q2"])])] (by decide)

/-- C9: in every non-empty grid returned by the layout search, the initial
state occupies column 0 of some row; this survives the trimming of the
all-empty rows. -/
theorem C9_initial_column_zero (ss : List String) (init : String) (accL : List String)
    (ts : Transitions) (a2r : Bool)
    (h : findOptimalStatePlacement ss init accL ts a2r ≠ []) :
    ∃ row ∈ findOptimalStatePlacement ss init accL ts a2r,
      row.head? = some (some init) := by
  rcases findOptimal_cases ss init accL ts a2r with he | ⟨r, c, p, hrc, hp, hpass, heq⟩
  · exact absurd he h
  · rw [heq]
    have hinit : initOk (placeGrid r c p) init = true := by
      unfold passes at hpass
      exact ((Bool.and_eq_true _ _).mp hpass).1
    obtain ⟨row, hrow, hhead⟩ := initOk_mem hinit
    refine ⟨row, ?_, hhead⟩
    apply List.mem_filter.mpr
    refine ⟨hrow, ?_⟩
    cases row with
    | nil => simp at hhead
    | cons c0 rest =>
      have hc0 : c0 = some init := by
        simp only [List.head?_cons] at hhead
        injection hhead
      subst hc0
      simp

/-- Witness for C9 at a concrete input. -/
theorem C9_witness :
    ∃ row ∈ findOptimalStatePlacement ["q1"] "q1" [] [] false,
      row.head? = some (some "q1") :=
  C9_initial_column_zero ["q1"] "q1" [] [] false (by decide)

/-! ## Lemmas: the edge-emission fold -/

theorem mem_pairsIdx {n i j : Nat} (hi : i < n) (hj : j < n) : (i, j) ∈ pairsIdx n := by
  simp only [pairsIdx, List.mem_flatMap, List.mem_map, List.mem_range]
  exact ⟨i, hi, j, hj, rfl⟩

theorem stateAt_eq {ss : List String} {i : Nat} (h : i < ss.length) :
    stateAt ss i = ss[i] := by
  rw [stateAt, List.get?_eq_getElem?, List.getElem?_eq_getElem h]
  rfl

theorem edgeStep_mem_mono (ts : Transitions) (g : Grid) (style : String) (ss : List String)
    (st : List ((Nat × Nat) × String) × List Edge) (ij : Nat × Nat) {e : Edge}
    (he : e ∈ st.2) : e ∈ (edgeStep ts g style ss st ij).2 := by
  simp only [edgeStep]
  split
  · split
    · exact List.mem_append_left _ he
    · exact he
  · split
    · exact he
    · split
      · exact List.mem_append_left _ he
      · exact List.mem_append_left _ he

theorem foldl_edgeStep_mem_mono (ts : Transitions) (g : Grid) (style : String)
    (ss : List String) :
    ∀ (L : List (Nat × Nat)) (st : List ((Nat × Nat) × String) × List Edge) {e : Edge},
      e ∈ st.2 → e ∈ (L.foldl (edgeStep ts g style ss) st).2 := by
  intro L
  induction L with
  | nil => intro st e he; exact he
  | cons ij L ih =>
    intro st e he
    rw [List.foldl_cons]
    exact ih _ (edgeStep_mem_mono ts g style ss st ij he)

/-- Whatever one loop iteration appends, ends up in the final edge list. -/
theorem emitted_of_mem_pairs (ts : Transitions) (g : Grid) (style : String) (ss : List String)
    {i j : Nat} (hij : (i, j) ∈ pairsIdx ss.length) (P : Edge → Prop)
    (hstep : ∀ st : List ((Nat × Nat) × String) × List Edge,
      ∃ e, (edgeStep ts g style ss st (i, j)).2 = st.2 ++ [e] ∧ P e) :
    ∃ e ∈ genEdges ts g style ss, P e := by
  obtain ⟨L1, L2, hdec⟩ := List.append_of_mem hij
  rw [genEdges, hdec, List.foldl_append, List.foldl_cons]
  obtain ⟨e, heq, hP⟩ :=
    hstep ((List.foldl (edgeStep ts g style ss) ([], []) L1))
  refine ⟨e, ?_, hP⟩
  apply foldl_edgeStep_mem_mono
  rw [heq]
  exact List.mem_append_right _ (List.mem_singleton.mpr rfl)

theorem loop_emitted (ts : Transitions) (g : Grid) (style : String) (ss : List String)
    {i : Nat} (hi : i < ss.length) {syms : List String}
    (hct : checkTransition ts (stateAt ss i) (stateAt ss i) = some syms) :
    Edge.loop (stateAt ss i) ((getEdge g (stateAt ss i)).getD "below") (labelOf syms style) ∈
      genEdges ts g style ss := by
  have hstep : ∀ st : List ((Nat × Nat) × String) × List Edge,
      ∃ e, (edgeStep ts g style ss st (i, i)).2 = st.2 ++ [e] ∧
        e = Edge.loop (stateAt ss i) ((getEdge g (stateAt ss i)).getD "below")
          (labelOf syms style) := by
    intro st
    simp only [edgeStep]
    rw [if_pos (by simp)]
    simp only [hct]
    exact ⟨_, rfl, rfl⟩
  obtain ⟨e, hmem, hP⟩ := emitted_of_mem_pairs ts g style ss (mem_pairsIdx hi hi) _ hstep
  subst hP
  exact hmem

theorem straight_emitted (ts : Transitions) (g : Grid) (style : String) (ss : List String)
    {i j : Nat} (hi : i < ss.length) (hj : j < ss.length)
    (hab : stateAt ss i ≠ stateAt ss j) {syms : List String}
    (hct : checkTransition ts (stateAt ss i) (stateAt ss j) = some syms)
    (hsc : straightCond ts g (stateAt ss i) (stateAt ss j) = true) :
    Edge.straight (stateAt ss i) (stateAt ss j) (labelOf syms style) ∈
      genEdges ts g style ss := by
  have hstep : ∀ st : List ((Nat × Nat) × String) × List Edge,
      ∃ e, (edgeStep ts g style ss st (i, j)).2 = st.2 ++ [e] ∧
        e = Edge.straight (stateAt ss i) (stateAt ss j) (labelOf syms style) := by
    intro st
    simp only [edgeStep]
    rw [if_neg (by simpa using hab)]
    simp only [hct]
    rw [if_pos hsc]
    exact ⟨_, rfl, rfl⟩
  obtain ⟨e, hmem, hP⟩ := emitted_of_mem_pairs ts g style ss (mem_pairsIdx hi hj) _ hstep
  subst hP
  exact hmem

theorem bent_emitted (ts : Transitions) (g : Grid) (style : String) (ss : List String)
    {i j : Nat} (hi : i < ss.length) (hj : j < ss.length)
    (hab : stateAt ss i ≠ stateAt ss j) {syms : List String}
    (hct : checkTransition ts (stateAt ss i) (stateAt ss j) = some syms)
    (hsc : straightCond ts g (stateAt ss i) (stateAt ss j) = false) :
    ∃ d, Edge.bent (stateAt ss i) (stateAt ss j) d
        ((bendDirection (stateAt ss i) (stateAt ss j) g).2) (labelOf syms style) ∈
      genEdges ts g style ss := by
  have hstep : ∀ st : List ((Nat × Nat) × String) × List Edge,
      ∃ e, (edgeStep ts g style ss st (i, j)).2 = st.2 ++ [e] ∧
        ∃ d, e = Edge.bent (stateAt ss i) (stateAt ss j) d
          ((bendDirection (stateAt ss i) (stateAt ss j) g).2) (labelOf syms style) := by
    intro st
    simp only [edgeStep]
    rw [if_neg (by simpa using hab)]
    simp only [hct]
    rw [if_neg (by simp [hsc])]
    exact ⟨_, rfl, _, rfl⟩
  obtain ⟨e, hmem, d, hP⟩ := emitted_of_mem_pairs ts g style ss (mem_pairsIdx hi hj) _ hstep
  subst hP
  exact ⟨d, hmem⟩


theorem edgeStep_sound (ts : Transitions) (g : Grid) (style : String) (ss : List String)
    (st : List ((Nat × Nat) × String) × List Edge) (ij : Nat × Nat) {e : Edge}
    (he : e ∈ (edgeStep ts g style ss st ij).2) : e ∈ st.2 ∨ EdgeOk ts g style e := by
  simp only [edgeStep] at he
  by_cases heq : (stateAt ss ij.1 == stateAt ss ij.2) = true
  · rw [if_pos heq] at he
    cases hct : checkTransition ts (stateAt ss ij.1) (stateAt ss ij.2) with
    | none => rw [hct] at he; exact Or.inl he
    | some syms =>
      simp only [hct] at he
      rcases List.mem_append.mp he with h | h
      · exact Or.inl h
      · right
        rw [List.mem_singleton.mp h]
        have hab : stateAt ss ij.1 = stateAt ss ij.2 := by
          simpa using heq
        refine ⟨syms, ?_, rfl, rfl⟩
        rw [← hab] at hct
        exact hct
  · rw [if_neg heq] at he
    cases hct : checkTransition ts (stateAt ss ij.1) (stateAt ss ij.2) with
    | none => rw [hct] at he; exact Or.inl he
    | some syms =>
      simp only [hct] at he
      have hne : stateAt ss ij.1 ≠ stateAt ss ij.2 := by
        intro hcon
        exact heq (by simpa using hcon)
      by_cases hsc : straightCond ts g (stateAt ss ij.1) (stateAt ss ij.2) = true
      · rw [if_pos hsc] at he
        rcases List.mem_append.mp he with h | h
        · exact Or.inl h
        · right
          rw [List.mem_singleton.mp h]
          exact ⟨hne, syms, hct, rfl, hsc⟩
      · rw [if_neg hsc] at he
        rcases List.mem_append.mp he with h | h
        · exact Or.inl h
        · right
          rw [List.mem_singleton.mp h]
          exact ⟨hne, syms, hct, rfl, Bool.not_eq_true _ ▸ hsc, rfl⟩

theorem foldl_edgeStep_sound (ts : Transitions) (g : Grid) (style : String)
    (ss : List String) :
    ∀ (L : List (Nat × Nat)) (st : List ((Nat × Nat) × String) × List Edge) (e : Edge),
      e ∈ (L.foldl (edgeStep ts g style ss) st).2 →
      e ∈ st.2 ∨ EdgeOk ts g style e := by
  intro L
  induction L with
  | nil => intro st e he; exact Or.inl he
  | cons ij L ih =>
    intro st e he
    rw [List.foldl_cons] at he
    rcases ih _ e he with h | h
    · exact edgeStep_sound ts g style ss st ij h
    · exact Or.inr h

/-- Every edge in the emitted list satisfies `EdgeOk`. -/
theorem genEdges_sound (ts : Transitions) (g : Grid) (style : String) (ss : List String)
    {e : Edge} (he : e ∈ genEdges ts g style ss) : EdgeOk ts g style e := by
  rcases foldl_edgeStep_sound ts g style ss (pairsIdx ss.length) ([], []) e he with h | h
  · exact absurd h (List.not_mem_nil e)
  · exact h

/-! ## Lemmas: sortedness of the symbol sort -/

theorem charListLe_cons {a b : Char} {as bs : List Char}
    (h : charListLe (a :: as) (b :: bs) = true) :
    a.toNat < b.toNat ∨ (a.toNat = b.toNat ∧ charListLe as bs = true) := by
  unfold charListLe at h
  by_cases h1 : a.toNat < b.toNat
  · exact Or.inl h1
  · rw [if_neg h1] at h
    by_cases h2 : b.toNat < a.toNat
    · rw [if_pos h2] at h
      exact absurd h (by simp)
    · rw [if_neg h2] at h
      exact Or.inr ⟨by omega, h⟩

theorem charListLe_cons_intro {a b : Char} {as bs : List Char}
    (h : a.toNat < b.toNat ∨ (a.toNat = b.toNat ∧ charListLe as bs = true)) :
    charListLe (a :: as) (b :: bs) = true := by
  unfold charListLe
  rcases h with h | ⟨heq, hrec⟩
  · rw [if_pos h]
  · rw [if_neg (by omega), if_neg (by omega)]
    exact hrec

theorem charListLe_trans : ∀ (a b c : List Char), charListLe a b = true →
    charListLe b c = true → charListLe a c = true := by
  intro a
  induction a with
  | nil => intro b c _ _; rfl
  | cons x xs ih =>
    intro b c hab hbc
    cases b with
    | nil => exact absurd hab (by simp [charListLe])
    | cons y ys =>
      cases c with
      | nil => exact absurd hbc (by simp [charListLe])
      | cons z zs =>
        rcases charListLe_cons hab with h1 | ⟨he1, hr1⟩ <;>
          rcases charListLe_cons hbc with h2 | ⟨he2, hr2⟩ <;>
          apply charListLe_cons_intro
        · exact Or.inl (by omega)
        · exact Or.inl (by omega)
        · exact Or.inl (by omega)
        · exact Or.inr ⟨by omega, ih ys zs hr1 hr2⟩

theorem charListLe_total : ∀ (a b : List Char), charListLe a b = true ∨
    charListLe b a = true := by
  intro a
  induction a with
  | nil => intro b; exact Or.inl rfl
  | cons x xs ih =>
    intro b
    cases b with
    | nil => exact Or.inr rfl
    | cons y ys =>
      by_cases h1 : x.toNat < y.toNat
      · exact Or.inl (charListLe_cons_intro (Or.inl h1))
      · by_cases h2 : y.toNat < x.toNat
        · exact Or.inr (charListLe_cons_intro (Or.inl h2))
        · rcases ih ys with h | h
          · exact Or.inl (charListLe_cons_intro (Or.inr ⟨by omega, h⟩))
          · exact Or.inr (charListLe_cons_intro (Or.inr ⟨by omega, h⟩))

theorem strLe_trans {a b c : String} (h1 : strLe a b = true) (h2 : strLe b c = true) :
    strLe a c = true :=
  charListLe_trans a.data b.data c.data h1 h2

theorem strLe_of_not {a b : String} (h : ¬ strLe a b = true) : strLe b a = true := by
  rcases charListLe_total a.data b.data with hx | hx
  · exact absurd hx h
  · exact hx

theorem mem_insertSorted {x z : String} : ∀ {l : List String},
    z ∈ insertSorted x l → z = x ∨ z ∈ l := by
  intro l
  induction l with
  | nil =>
    intro h
    rw [insertSorted] at h
    exact Or.inl (List.mem_singleton.mp h)
  | cons y ys ih =>
    intro h
    rw [insertSorted] at h
    by_cases hxy : strLe x y = true
    · rw [if_pos hxy] at h
      rcases List.mem_cons.mp h with h' | h'
      · exact Or.inl h'
      · exact Or.inr h'
    · rw [if_neg hxy] at h
      rcases List.mem_cons.mp h with h' | h'
      · exact Or.inr (h' ▸ List.mem_cons_self y ys)
      · rcases ih h' with h'' | h''
        · exact Or.inl h''
        · exact Or.inr (List.mem_cons_of_mem y h'')

theorem insertSorted_pairwise (x : String) :
    ∀ {l : List String}, l.Pairwise (fun a b => strLe a b = true) →
      (insertSorted x l).Pairwise (fun a b => strLe a b = true) := by
  intro l
  induction l with
  | nil =>
    intro _
    exact List.pairwise_singleton _ _
  | cons y ys ih =>
    intro h
    rw [List.pairwise_cons] at h
    obtain ⟨hy, hys⟩ := h
    rw [insertSorted]
    by_cases hxy : strLe x y = true
    · rw [if_pos hxy]
      rw [List.pairwise_cons]
      refine ⟨?_, List.pairwise_cons.mpr ⟨hy, hys⟩⟩
      intro z hz
      rcases List.mem_cons.mp hz with rfl | hz'
      · exact hxy
      · exact strLe_trans hxy (hy z hz')
    · rw [if_neg hxy]
      rw [List.pairwise_cons]
      refine ⟨?_, ih hys⟩
      intro z hz
      rcases mem_insertSorted hz with rfl | hz'
      · exact strLe_of_not hxy
      · exact hy z hz'

theorem sortStrings_pairwise (l : List String) :
    (sortStrings l).Pairwise (fun a b => strLe a b = true) := by
  induction l with
  | nil => exact List.Pairwise.nil
  | cons x xs ih => exact insertSorted_pairwise x ih

theorem checkTransition_sorted (ts : Transitions) (a b : String) (syms : List String)
    (h : checkTransition ts a b = some syms) :
    syms.Pairwise (fun x y => strLe x y = true) := by
  have hgen : ∀ l : List String,
      (if l.length > 0 then some (sortStrings l) else none) = some syms →
      syms.Pairwise (fun x y => strLe x y = true) := by
    intro l hl
    by_cases hlen : l.length > 0
    · rw [if_pos hlen] at hl
      injection hl with hl
      subst hl
      exact sortStrings_pairwise _
    · rw [if_neg hlen] at hl
      exact absurd hl (by simp)
  exact hgen _ h

/-! ## Claims about labels, loops and the empty-grid behaviour -/

/-- C7 counterexample: the symbol `0` is declared in two separate transition
records for the same pair (`q1,0,q2` and `q1,0,1,q2`); the emitted edge label
is `"0, 0, 1"` — `0` appears TWICE, so the label is not de-duplicated, contrary
to the claim. -/
theorem C7_counterexample :
    genEdges (createTransitions [["q1", "0", "q2"], ["q1", "0", "1", "q2"]])
      (findOptimalStatePlacement ["q1", "q2"] "q1" ["q2"]
        (createTransitions [["q1", "0", "q2"], ["q1", "0", "1", "q2"]]) false)
      "roman" ["q1", "q2"] = [Edge.straight "q1" "q2" "0, 0, 1"] := by
  decide

/-- C7 (amended): for every emitted edge (loop, straight, or bent), the label
text is the SORTED, comma-joined list of symbols labelling transitions from
the edge's source to its destination, each symbol individually formatted per
the selected symbol style — but WITHOUT de-duplication: a symbol contributes
once per distinct symbol-group key containing the destination, so a symbol
declared in two records with different symbol groups appears twice. -/
theorem C7_label_sorted (ts : Transitions) (g : Grid) (style : String)
    (ss : List String) (e : Edge) (he : e ∈ genEdges ts g style ss) :
    ∃ syms, checkTransition ts e.src e.dst = some syms ∧
      e.labelText = labelOf syms style ∧
      syms.Pairwise (fun x y => strLe x y = true) := by
  have hok := genEdges_sound ts g style ss he
  cases e with
  | loop s side lab =>
    obtain ⟨syms, hct, hlab, _⟩ := hok
    exact ⟨syms, hct, hlab, checkTransition_sorted ts s s syms hct⟩
  | straight a b lab =>
    obtain ⟨_, syms, hct, hlab, _⟩ := hok
    exact ⟨syms, hct, hlab, checkTransition_sorted ts a b syms hct⟩
  | bent a b d anc lab =>
    obtain ⟨_, syms, hct, hlab, _, _⟩ := hok
    exact ⟨syms, hct, hlab, checkTransition_sorted ts a b syms hct⟩

/-- Witness for C7 (amended) at the concrete duplicated-symbol input. -/
theorem C7_witness :
    ∃ syms, checkTransition (createTransitions [["q1", "0", "q2"], ["q1", "0", "1", "q2"]])
        (Edge.straight "q1" "q2" "0, 0, 1").src (Edge.straight "q1" "q2" "0, 0, 1").dst =
        some syms ∧
      (Edge.straight "q1" "q2" "0, 0, 1").labelText = labelOf syms "roman" ∧
      syms.Pairwise (fun x y => strLe x y = true) :=
  C7_label_sorted (createTransitions [["q1", "0", "q2"], ["q1", "0", "1", "q2"]])
    (findOptimalStatePlacement ["q1", "q2"] "q1" ["q2"]
      (createTransitions [["q1", "0", "q2"], ["q1", "0", "1", "q2"]]) false)
    "roman" ["q1", "q2"] (Edge.straight "q1" "q2" "0, 0, 1") (by decide)

/-- C8 counterexample: in the scenario states = [q1], initial = q1,
accepting = [q1], transitions = `q1,0,1,q1`, the single emitted self-loop has
side `"above"`, not the claimed `"below"`: `getEdge` treats the grid boundary
(`i === 0`) as a free side, and `above` is first in the priority order. -/
theorem C8_counterexample :
    genEdges (createTransitions [["q1", "0", "1", "q1"]])
        (findOptimalStatePlacement ["q1"] "q1" ["q1"]
          (createTransitions [["q1", "0", "1", "q1"]]) false)
        "roman" ["q1"] = [Edge.loop "q1" "above" "0, 1"] ∧
      ("above" : String) ≠ "below" := by
  constructor
  · decide
  · decide

/-- C8 (amended): for the input states = [q1], initial = q1, accepting = [q1],
transitions = `q1,0,1,q1`, the winning grid is `[[q1]]`, and exactly one
self-loop is emitted, labelled with the sorted symbols `0` and `1` joined by
`", "`, with loop side `"above"` (the first free direction in priority order
above, below, left, right — the top side of a 1×1 grid is free). -/
theorem C8_scenario :
    findOptimalStatePlacement ["q1"] "q1" ["q1"]
        (createTransitions [["q1", "0", "1", "q1"]]) false = [[some "q1"]] ∧
      genEdges (createTransitions [["q1", "0", "1", "q1"]])
        (findOptimalStatePlacement ["q1"] "q1" ["q1"]
          (createTransitions [["q1", "0", "1", "q1"]]) false)
        "roman" ["q1"] = [Edge.loop "q1" "above" "0, 1"] := by
  constructor
  · decide
  · decide

/-- C10: when the layout search returns an empty grid (no shape/permutation
satisfies the hard constraints, e.g. when the declared initial state is not in
the state list), the generator raises no error (all emission functions are
total), emits no node declarations, but still emits an edge declaration for
every ordered pair of distinct states with a transition and a self-loop
declaration with side `"below"` for every self-transition — referencing node
names that were never declared. -/
theorem C10_empty_grid (ss : List String) (init : String) (accL : List String)
    (ts : Transitions) (style : String) (a2r : Bool)
    (he : findOptimalStatePlacement ss init accL ts a2r = []) :
    genNodes (findOptimalStatePlacement ss init accL ts a2r) init accL = [] ∧
    (∀ a b, a ∈ ss → b ∈ ss → a ≠ b → (checkTransition ts a b).isSome = true →
      ∃ e ∈ genEdges ts (findOptimalStatePlacement ss init accL ts a2r) style ss,
        e.src = a ∧ e.dst = b ∧ e.isLoop = false) ∧
    (∀ a, a ∈ ss → ∀ syms, checkTransition ts a a = some syms →
      Edge.loop a "below" (labelOf syms style) ∈
        genEdges ts (findOptimalStatePlacement ss init accL ts a2r) style ss) := by
  rw [he]
  refine ⟨rfl, ?_, ?_⟩
  · intro a b ha hb hab hconn
    obtain ⟨i, hi, hia⟩ := List.mem_iff_getElem.mp ha
    obtain ⟨j, hj, hjb⟩ := List.mem_iff_getElem.mp hb
    have hsa : stateAt ss i = a := by rw [stateAt_eq hi, hia]
    have hsb : stateAt ss j = b := by rw [stateAt_eq hj, hjb]
    obtain ⟨syms, hsyms⟩ := Option.isSome_iff_exists.mp hconn
    by_cases hsc : straightCond ts [] a b = true
    · refine ⟨Edge.straight a b (labelOf syms style), ?_, rfl, rfl, rfl⟩
      rw [← hsa, ← hsb]
      exact straight_emitted ts [] style ss hi hj (by rw [hsa, hsb]; exact hab)
        (by rw [hsa, hsb]; exact hsyms) (by rw [hsa, hsb]; exact hsc)
    · have hsc' : straightCond ts [] a b = false := by
        cases hv : straightCond ts [] a b
        · rfl
        · exact absurd hv hsc
      obtain ⟨d, hmem⟩ := bent_emitted ts [] style ss hi hj
        (by rw [hsa, hsb]; exact hab) (by rw [hsa, hsb]; exact hsyms)
        (by rw [hsa, hsb]; exact hsc')
      rw [hsa, hsb] at hmem
      exact ⟨Edge.bent a b d ((bendDirection a b []).2) (labelOf syms style),
        hmem, rfl, rfl, rfl⟩
  · intro a ha syms hsyms
    obtain ⟨i, hi, hia⟩ := List.mem_iff_getElem.mp ha
    have hsa : stateAt ss i = a := by rw [stateAt_eq hi, hia]
    have hmem := loop_emitted ts [] style ss hi
      (by rw [hsa]; exact hsyms)
    rw [hsa] at hmem
    exact hmem

/-- Witness for C10: the initial state `q0` is not in the state list, so the
search returns the empty grid, yet the one-way edge q1→q2 is still emitted. -/
theorem C10_witness :
    genNodes (findOptimalStatePlacement ["q1", "q2"] "q0" []
        [("q1", [("0", ["q2"])])] false) "q0" [] = [] ∧
    (∀ a b, a ∈ (["q1", "q2"] : List String) → b ∈ (["q1", "q2"] : List String) → a ≠ b →
      (checkTransition [("q1", [("0", ["q2"])])] a b).isSome = true →
      ∃ e ∈ genEdges [("q1", [("0", ["q2"])])]
          (findOptimalStatePlacement ["q1", "q2"] "q0" [] [("q1", [("0", ["q2"])])] false)
          "roman" ["q1", "q2"],
        e.src = a ∧ e.dst = b ∧ e.isLoop = false) ∧
    (∀ a, a ∈ (["q1", "q2"] : List String) →
      ∀ syms, checkTransition [("q1", [("0", ["q2"])])] a a = some syms →
      Edge.loop a "below" (labelOf syms "roman") ∈
        genEdges [("q1", [("0", ["q2"])])]
          (findOptimalStatePlacement ["q1", "q2"] "q0" [] [("q1", [("0", ["q2"])])] false)
          "roman" ["q1", "q2"]) :=
  C10_empty_grid ["q1", "q2"] "q0" [] [("q1", [("0", ["q2"])])] "roman" false (by decide)

/-! ## Lemmas: positions and the null corner (for C4) -/

theorem findPosRow_spec {s : String} :
    ∀ {row : List (Option String)} {j0 j : Nat},
      findPosRow s j0 row = some j →
      ∃ k, j = j0 + k ∧ row.get? k = some (some s) := by
  intro row
  induction row with
  | nil =>
    intro j0 j h
    exact absurd h (by simp [findPosRow])
  | cons c rest ih =>
    intro j0 j h
    rw [findPosRow] at h
    by_cases hc : (c == some s) = true
    · rw [if_pos hc] at h
      injection h with h
      refine ⟨0, by omega, ?_⟩
      rw [List.get?_cons_zero]
      rw [show c = some s from by simpa using hc]
    · rw [if_neg hc] at h
      obtain ⟨k, hk, hget⟩ := ih h
      exact ⟨k + 1, by omega, by rw [List.get?_cons_succ]; exact hget⟩

theorem findPositionAux_spec {e : String} :
    ∀ {g : Grid} {i0 i j : Nat},
      findPositionAux e i0 g = some (i, j) →
      ∃ k row, i = i0 + k ∧ g.get? k = some row ∧ row.get? j = some (some e) := by
  intro g
  induction g with
  | nil =>
    intro i0 i j h
    exact absurd h (by simp [findPositionAux])
  | cons row rest ih =>
    intro i0 i j h
    rw [findPositionAux] at h
    cases hrow : findPosRow e 0 row with
    | some j' =>
      rw [hrow] at h
      injection h with h
      injection h with hi hj
      obtain ⟨k0, hk0, hget⟩ := findPosRow_spec hrow
      refine ⟨0, row, by omega, by rw [List.get?_cons_zero], ?_⟩
      rw [show j = k0 from by omega]
      exact hget
    | none =>
      rw [hrow] at h
      obtain ⟨k, row', hi, hget, hj⟩ := ih h
      exact ⟨k + 1, row', by omega, by rw [List.get?_cons_succ]; exact hget, hj⟩

theorem findPosition_spec {g : Grid} {e : String} {i j : Nat}
    (h : findPosition g e = some (i, j)) :
    ∃ row, g.get? i = some row ∧ row.get? j = some (some e) := by
  obtain ⟨k, row, hi, hget, hj⟩ := findPositionAux_spec h
  refine ⟨row, ?_, hj⟩
  rw [hi, show (0 : Nat) + k = k from by omega]
  exact hget

theorem anyRowAux_congr {f f' : Nat → Nat → Option String → Bool} {i : Nat} :
    ∀ {row : List (Option String)} {j0 : Nat},
      (∀ k c, row.get? k = some c → f i (j0 + k) c = f' i (j0 + k) c) →
      anyRowAux f i j0 row = anyRowAux f' i j0 row := by
  intro row
  induction row with
  | nil => intro j0 _; rfl
  | cons c rest ih =>
    intro j0 hcong
    rw [anyRowAux, anyRowAux]
    have h0 : f i j0 c = f' i j0 c := by
      have := hcong 0 c (by rw [List.get?_cons_zero])
      simpa using this
    rw [h0, ih]
    intro k cc hk
    have := hcong (k + 1) cc (by rw [List.get?_cons_succ]; exact hk)
    rw [show j0 + (k + 1) = j0 + 1 + k from by omega] at this
    exact this

theorem anyCellAux_congr {f f' : Nat → Nat → Option String → Bool} :
    ∀ {g : Grid} {i0 : Nat},
      (∀ k j row c, g.get? k = some row → row.get? j = some c →
        f (i0 + k) j c = f' (i0 + k) j c) →
      anyCellAux f i0 g = anyCellAux f' i0 g := by
  intro g
  induction g with
  | nil => intro i0 _; rfl
  | cons row rest ih =>
    intro i0 hcong
    rw [anyCellAux, anyCellAux]
    have hrow : anyRowAux f i0 0 row = anyRowAux f' i0 0 row := by
      apply anyRowAux_congr
      intro k c hk
      have := hcong 0 (0 + k) row c (by rw [List.get?_cons_zero]) (by
        rw [show (0 : Nat) + k = k from by omega]; exact hk)
      rw [show i0 + 0 = i0 from by omega] at this
      exact this
    rw [hrow, ih]
    intro k j row' c hrow' hc
    have := hcong (k + 1) j row' c (by rw [List.get?_cons_succ]; exact hrow') hc
    rw [show i0 + (k + 1) = i0 + 1 + k from by omega] at this
    exact this


theorem placeGrid_get?_inv {r c : Nat} {p : List String} {i : Nat}
    {row : List (Option String)} (h : (placeGrid r c p).get? i = some row) :
    i < r ∧ row = placeRow p c i := by
  rw [placeGrid, List.get?_eq_getElem?, List.getElem?_map] at h
  have hlt : i < r := by
    by_contra hge
    rw [List.getElem?_eq_none (by simpa using hge)] at h
    exact Option.noConfusion h
  rw [List.getElem?_range hlt, Option.map_some'] at h
  injection h with h
  exact ⟨hlt, h.symm⟩

theorem placeRow_get?_inv {p : List String} {c i j : Nat} {cell : Option String}
    (h : (placeRow p c i).get? j = some cell) :
    j < c ∧ cell = p.get? (i * c + j) := by
  rw [placeRow, List.get?_eq_getElem?, List.getElem?_map] at h
  have hlt : j < c := by
    by_contra hge
    rw [List.getElem?_eq_none (by simpa using hge)] at h
    exact Option.noConfusion h
  rw [List.getElem?_range hlt, Option.map_some'] at h
  injection h with h
  exact ⟨hlt, h.symm⟩

theorem goodGrid_result {n r c : Nat} {p : List String}
    (hrc : (r, c) ∈ getPossibleGridSizes n) (hlen : p.length = n) :
    GoodGrid (trimGrid (placeGrid r c p)) c := by
  obtain ⟨hr1, hc1, hprod⟩ := mem_getPossibleGridSizes hrc
  have h2 : p.length ≤ r * c := by omega
  have h3 : r * c ≤ p.length + 1 := by omega
  rcases trimGrid_placeGrid hc1 h2 h3 with heq | ⟨hceq, hreq, heq⟩
  · rw [heq]
    constructor
    · intro row hrow
      obtain ⟨i, _, rfl⟩ := mem_placeGrid hrow
      exact placeRow_length p c i
    · intro i j row hrow hcell
      obtain ⟨hir, hroweq⟩ := placeGrid_get?_inv hrow
      subst hroweq
      obtain ⟨hjc, hcelleq⟩ := placeRow_get?_inv hcell
      have hnone : p.length ≤ i * c + j := by
        by_contra hlt
        rw [List.get?_eq_getElem?, List.getElem?_eq_getElem (by omega)] at hcelleq
        exact Option.noConfusion hcelleq
      have hub : (i + 1) * c ≤ r * c := Nat.mul_le_mul_right c hir
      rw [Nat.succ_mul] at hub
      rcases hprod with hpr | hpr
      · omega
      · rw [placeGrid_length]
        have hieq : i + 1 = r := by
          by_contra hir'
          have hi2 : i + 2 ≤ r := by omega
          have hm := Nat.mul_le_mul_right c hi2
          rw [show (i + 2) * c = i * c + 2 * c from by ring] at hm
          omega
        have hrr : r * c = i * c + c := by
          rw [← hieq]; ring
        exact ⟨hieq, by omega⟩
  · rw [heq, hceq]
    constructor
    · intro row hrow
      obtain ⟨i, _, rfl⟩ := mem_placeGrid hrow
      exact placeRow_length p 1 i
    · intro i j row hrow hcell
      obtain ⟨hir, hroweq⟩ := placeGrid_get?_inv hrow
      subst hroweq
      obtain ⟨hjc, hcelleq⟩ := placeRow_get?_inv hcell
      have hnone : p.length ≤ i * 1 + j := by
        by_contra hlt
        rw [List.get?_eq_getElem?, List.getElem?_eq_getElem (by omega)] at hcelleq
        exact Option.noConfusion hcelleq
      omega

theorem crossCellTest_eq_true {x1 y1 x2 y2 i j : Nat} :
    crossCellTest x1 y1 x2 y2 i j = true ↔
      ¬((i = x1 ∧ j = y1) ∨ (i = x2 ∧ j = y2)) ∧
      ((x2 : Int) - (x1 : Int)) * ((j : Int) - (y1 : Int)) =
        ((y2 : Int) - (y1 : Int)) * ((i : Int) - (x1 : Int)) ∧
      (min x1 x2 ≤ i ∧ i ≤ max x1 x2 ∧ min y1 y2 ≤ j ∧ j ≤ max y1 y2) := by
  unfold crossCellTest
  simp only [Bool.and_eq_true, Bool.not_eq_true', Bool.or_eq_false_iff,
    Bool.and_eq_false_iff, beq_iff_eq, beq_eq_false_iff_ne, decide_eq_true_iff]
  tauto

theorem corner_not_cross {R C x1 y1 x2 y2 : Nat}
    (hx1 : x1 < R) (hy1 : y1 < C) (hx2 : x2 < R) (hy2 : y2 < C)
    (hne1 : ¬(x1 + 1 = R ∧ y1 + 1 = C)) (hne2 : ¬(x2 + 1 = R ∧ y2 + 1 = C)) :
    crossCellTest x1 y1 x2 y2 (R - 1) (C - 1) = false := by
  cases hv : crossCellTest x1 y1 x2 y2 (R - 1) (C - 1)
  · rfl
  · exfalso
    obtain ⟨hskip, hcol, hb1, hb2, hb3, hb4⟩ := crossCellTest_eq_true.mp hv
    have hxcase : x1 = R - 1 ∨ x2 = R - 1 := by omega
    have hycase : y1 = C - 1 ∨ y2 = C - 1 := by omega
    rcases hxcase with hx | hx <;> rcases hycase with hy | hy
    · exact hne1 ⟨by omega, by omega⟩
    · -- x1 at the corner row, y2 at the corner column
      have hy1' : y1 < C - 1 := by
        rcases Nat.lt_or_ge y1 (C - 1) with h | h
        · exact h
        · exact absurd ⟨by omega, by omega⟩ hne1
      have hx2' : x2 < R - 1 := by
        rcases Nat.lt_or_ge x2 (R - 1) with h | h
        · exact h
        · exact absurd ⟨by omega, by omega⟩ hne2
      have hz : ((R - 1 : Nat) : Int) - (x1 : Int) = 0 := by omega
      rw [hz, mul_zero] at hcol
      have f1 : (x2 : Int) - (x1 : Int) ≠ 0 := by omega
      have f2 : ((C - 1 : Nat) : Int) - (y1 : Int) ≠ 0 := by omega
      exact (mul_ne_zero f1 f2) hcol
    · -- y1 at the corner column, x2 at the corner row
      have hx1' : x1 < R - 1 := by
        rcases Nat.lt_or_ge x1 (R - 1) with h | h
        · exact h
        · exact absurd ⟨by omega, by omega⟩ hne1
      have hy2' : y2 < C - 1 := by
        rcases Nat.lt_or_ge y2 (C - 1) with h | h
        · exact h
        · exact absurd ⟨by omega, by omega⟩ hne2
      have hz : ((C - 1 : Nat) : Int) - (y1 : Int) = 0 := by omega
      rw [hz, mul_zero] at hcol
      have f1 : (y2 : Int) - (y1 : Int) ≠ 0 := by omega
      have f2 : ((R - 1 : Nat) : Int) - (x1 : Int) ≠ 0 := by omega
      exact (mul_ne_zero f1 f2) hcol.symm
    · exact hne2 ⟨by omega, by omega⟩

theorem cross_eq_spec {g : Grid} {C : Nat} (hg : GoodGrid g C) (e1 e2 : String) :
    doesLineCrossOtherElements g e1 e2 = specCrossesOccupied g e1 e2 := by
  unfold doesLineCrossOtherElements specCrossesOccupied
  cases h1 : findPosition g e1 with
  | none => rfl
  | some p1 =>
    cases h2 : findPosition g e2 with
    | none => rfl
    | some p2 =>
      obtain ⟨x1, y1⟩ := p1
      obtain ⟨x2, y2⟩ := p2
      apply anyCellAux_congr
      intro k j row cc hrow hcell
      cases cc with
      | some s => simp
      | none =>
        simp only [Option.isSome_none, Bool.false_and]
        obtain ⟨hk, hj⟩ := hg.2 k j row hrow hcell
        obtain ⟨row1, hrow1, hcell1⟩ := findPosition_spec h1
        obtain ⟨row2, hrow2, hcell2⟩ := findPosition_spec h2
        have hx1R : x1 < g.length := by
          by_contra hge
          rw [List.get?_eq_none.mpr (by omega)] at hrow1
          exact Option.noConfusion hrow1
        have hx2R : x2 < g.length := by
          by_contra hge
          rw [List.get?_eq_none.mpr (by omega)] at hrow2
          exact Option.noConfusion hrow2
        have hy1C : y1 < C := by
          have hlen1 : row1.length = C := hg.1 row1 (List.get?_mem hrow1)
          by_contra hge
          rw [List.get?_eq_none.mpr (by omega)] at hcell1
          exact Option.noConfusion hcell1
        have hy2C : y2 < C := by
          have hlen2 : row2.length = C := hg.1 row2 (List.get?_mem hrow2)
          by_contra hge
          rw [List.get?_eq_none.mpr (by omega)] at hcell2
          exact Option.noConfusion hcell2
        have hne1 : ¬(x1 + 1 = g.length ∧ y1 + 1 = C) := by
          rintro ⟨ha, hb⟩
          rw [show x1 = k from by omega] at hrow1
          rw [hrow] at hrow1
          injection hrow1 with hrow1
          rw [← hrow1, show y1 = j from by omega, hcell] at hcell1
          exact Option.noConfusion (Option.some.inj hcell1)
        have hne2 : ¬(x2 + 1 = g.length ∧ y2 + 1 = C) := by
          rintro ⟨ha, hb⟩
          rw [show x2 = k from by omega] at hrow2
          rw [hrow] at hrow2
          injection hrow2 with hrow2
          rw [← hrow2, show y2 = j from by omega, hcell] at hcell2
          exact Option.noConfusion (Option.some.inj hcell2)
        rw [show (0 : Nat) + k = g.length - 1 from by omega,
          show j = C - 1 from by omega]
        exact corner_not_cross hx1R hy1C hx2R hy2C hne1 hne2

/-- C4: for every pair of distinct connected states of the generated diagram,
the emitted edge is straight (the `edge [above, ->]` form, label anchored on
the "above" side) if and only if the connection is one-way
(`checkConnection = 1`) AND the straight line segment between the two states'
cells in the returned grid passes through no other OCCUPIED cell's grid
coordinates; in particular an empty (null) cell lying on the segment does not
prevent a straight edge (in any reachable grid the unique null cell sits in
the bottom-right corner and can never lie on such a segment, so the code's
all-cells test agrees with the occupied-cells test). -/
theorem C4_straight_iff (ss : List String) (init : String) (accL : List String)
    (ts : Transitions) (a2r : Bool) (style : String) (a b : String)
    (ha : a ∈ ss) (hb : b ∈ ss) (hab : a ≠ b)
    (hconn : (checkTransition ts a b).isSome = true) :
    (∃ lab, Edge.straight a b lab ∈
        genEdges ts (findOptimalStatePlacement ss init accL ts a2r) style ss) ↔
      (checkConnection ts a b = 1 ∧
        specCrossesOccupied (findOptimalStatePlacement ss init accL ts a2r) a b = false) := by
  have hcross : doesLineCrossOtherElements (findOptimalStatePlacement ss init accL ts a2r) a b =
      specCrossesOccupied (findOptimalStatePlacement ss init accL ts a2r) a b := by
    rcases findOptimal_cases ss init accL ts a2r with he | ⟨r, c, p, hrc, hp, hpass, heq⟩
    · rw [he]
      rfl
    · rw [heq]
      exact cross_eq_spec (goodGrid_result hrc (length_of_mem_getPermutations hp)) a b
  constructor
  · rintro ⟨lab, hmem⟩
    have hok := genEdges_sound _ _ _ _ hmem
    obtain ⟨_, syms, hct, _, hsc⟩ := hok
    unfold straightCond at hsc
    obtain ⟨hnc, hdeg⟩ := (Bool.and_eq_true _ _).mp hsc
    refine ⟨by simpa using hdeg, ?_⟩
    rw [← hcross]
    simpa using hnc
  · rintro ⟨hdeg, hnc⟩
    obtain ⟨i, hi, hia⟩ := List.mem_iff_getElem.mp ha
    obtain ⟨j, hj, hjb⟩ := List.mem_iff_getElem.mp hb
    have hsa : stateAt ss i = a := by rw [stateAt_eq hi, hia]
    have hsb : stateAt ss j = b := by rw [stateAt_eq hj, hjb]
    obtain ⟨syms, hsyms⟩ := Option.isSome_iff_exists.mp hconn
    have hsc : straightCond ts (findOptimalStatePlacement ss init accL ts a2r) a b = true := by
      unfold straightCond
      rw [hcross, hnc, hdeg]
      simp
    refine ⟨labelOf syms style, ?_⟩
    have hmem := straight_emitted ts (findOptimalStatePlacement ss init accL ts a2r) style ss
      hi hj (by rw [hsa, hsb]; exact hab) (by rw [hsa, hsb]; exact hsyms)
      (by rw [hsa, hsb]; exact hsc)
    rw [hsa, hsb] at hmem
    exact hmem

/-- Witness for C4 at the one-way scenario q1→q2 on the grid `[[q1, q2]]`. -/
theorem C4_witness :
    (∃ lab, Edge.straight "q1" "q2" lab ∈
        genEdges [("q1", [("1", ["q2"])])]
          (findOptimalStatePlacement ["q1", "q2"] "q1" ["q2"]
            [("q1", [("1", ["q2"])])] false) "roman" ["q1", "q2"]) ↔
      (checkConnection [("q1", [("1", ["q2"])])] "q1" "q2" = 1 ∧
        specCrossesOccupied (findOptimalStatePlacement ["q1", "q2"] "q1" ["q2"]
          [("q1", [("1", ["q2"])])] false) "q1" "q2" = false) :=
  C4_straight_iff ["q1", "q2"] "q1" ["q2"] [("q1", [("1", ["q2"])])] false "roman"
    "q1" "q2" (by decide) (by decide) (by decide) (by decide)

/-! ## Lemmas: the shared bend-direction array (for C6) -/

theorem arrGet_cons_pos {k k' : Nat × Nat} {v : String} {arr : List ((Nat × Nat) × String)}
    (h : k = k') : arrGet ((k', v) :: arr) k = v := by
  subst h
  unfold arrGet
  simp [List.lookup]

theorem arrGet_cons_neg {k k' : Nat × Nat} {v : String} {arr : List ((Nat × Nat) × String)}
    (h : k ≠ k') : arrGet ((k', v) :: arr) k = arrGet arr k := by
  unfold arrGet
  have hbeq : (k == k') = false := beq_eq_false_iff_ne.mpr h
  simp [List.lookup, hbeq]

theorem arrGet_setset (arr : List ((Nat × Nat) × String)) (i j : Nat) (v : String)
    (k : Nat × Nat) :
    arrGet (arrSet (arrSet arr (i, j) v) (j, i) v) k =
      if k = (j, i) ∨ k = (i, j) then v else arrGet arr k := by
  unfold arrSet
  by_cases h1 : k = (j, i)
  · rw [if_pos (Or.inl h1), arrGet_cons_pos h1]
  · rw [arrGet_cons_neg h1]
    by_cases h2 : k = (i, j)
    · rw [if_pos (Or.inr h2), arrGet_cons_pos h2]
    · rw [if_neg (by tauto), arrGet_cons_neg h2]

theorem bendDirection_fst_ne (a b : String) (g : Grid) :
    (bendDirection a b g).1 ≠ "" := by
  simp only [bendDirection]
  split_ifs <;> decide


theorem edgeStep_bentInv {ts : Transitions} {g : Grid} {style : String} {ss : List String}
    (hnd : ss.Nodup) {st : List ((Nat × Nat) × String) × List Edge} {i j : Nat}
    (hi : i < ss.length) (hj : j < ss.length)
    (hinv : BentInv ss st) : BentInv ss (edgeStep ts g style ss st (i, j)) := by
  by_cases hab : (stateAt ss i == stateAt ss j) = true
  · cases hct : checkTransition ts (stateAt ss i) (stateAt ss j) with
    | none =>
      have heq : edgeStep ts g style ss st (i, j) = st := by
        simp only [edgeStep]
        rw [if_pos hab]
        simp only [hct]
      rw [heq]
      exact hinv
    | some syms =>
      have heq : edgeStep ts g style ss st (i, j) =
          (st.1, st.2 ++ [Edge.loop (stateAt ss i)
            ((getEdge g (stateAt ss i)).getD "below") (labelOf syms style)]) := by
        simp only [edgeStep]
        rw [if_pos hab]
        simp only [hct]
      rw [heq]
      refine ⟨hinv.1, ?_⟩
      intro a b d anc lab hmem
      rcases List.mem_append.mp hmem with h | h
      · exact hinv.2 a b d anc lab h
      · exact absurd (List.mem_singleton.mp h) (by simp)
  · cases hct : checkTransition ts (stateAt ss i) (stateAt ss j) with
    | none =>
      have heq : edgeStep ts g style ss st (i, j) = st := by
        simp only [edgeStep]
        rw [if_neg hab]
        simp only [hct]
      rw [heq]
      exact hinv
    | some syms =>
      by_cases hsc : straightCond ts g (stateAt ss i) (stateAt ss j) = true
      · have heq : edgeStep ts g style ss st (i, j) =
            (st.1, st.2 ++ [Edge.straight (stateAt ss i) (stateAt ss j)
              (labelOf syms style)]) := by
          simp only [edgeStep]
          rw [if_neg hab]
          simp only [hct]
          rw [if_pos hsc]
        rw [heq]
        refine ⟨hinv.1, ?_⟩
        intro a b d anc lab hmem
        rcases List.mem_append.mp hmem with h | h
        · exact hinv.2 a b d anc lab h
        · exact absurd (List.mem_singleton.mp h) (by simp)
      · have heq : edgeStep ts g style ss st (i, j) =
            (arrSet (arrSet st.1 (i, j)
                (if (arrGet st.1 (i, j) == "") = true
                 then (bendDirection (stateAt ss i) (stateAt ss j) g).1
                 else arrGet st.1 (i, j))) (j, i)
                (if (arrGet st.1 (i, j) == "") = true
                 then (bendDirection (stateAt ss i) (stateAt ss j) g).1
                 else arrGet st.1 (i, j)),
             st.2 ++ [Edge.bent (stateAt ss i) (stateAt ss j)
                (if (arrGet st.1 (i, j) == "") = true
                 then (bendDirection (stateAt ss i) (stateAt ss j) g).1
                 else arrGet st.1 (i, j))
                ((bendDirection (stateAt ss i) (stateAt ss j) g).2)
                (labelOf syms style)]) := by
          simp only [edgeStep]
          rw [if_neg hab]
          simp only [hct]
          rw [if_neg hsc]
        rw [heq]
        have hbDne : (if (arrGet st.1 (i, j) == "") = true
            then (bendDirection (stateAt ss i) (stateAt ss j) g).1
            else arrGet st.1 (i, j)) ≠ "" := by
          by_cases hc : (arrGet st.1 (i, j) == "") = true
          · rw [if_pos hc]
            exact bendDirection_fst_ne (stateAt ss i) (stateAt ss j) g
          · rw [if_neg hc]
            intro hcon
            exact hc (by simp [hcon])
        have hia : ss.indexOf (stateAt ss i) = i := by
          rw [stateAt_eq hi]
          exact List.indexOf_getElem hnd i hi
        have hjb : ss.indexOf (stateAt ss j) = j := by
          rw [stateAt_eq hj]
          exact List.indexOf_getElem hnd j hj
        constructor
        · intro k1 k2
          rw [arrGet_setset, arrGet_setset]
          by_cases h1 : ((k1, k2) : Nat × Nat) = (j, i) ∨ ((k1, k2) : Nat × Nat) = (i, j)
          · rw [if_pos h1]
            have h2 : ((k2, k1) : Nat × Nat) = (j, i) ∨ ((k2, k1) : Nat × Nat) = (i, j) := by
              rcases h1 with h | h
              · right
                injection h with ha hb
                subst ha; subst hb; rfl
              · left
                injection h with ha hb
                subst ha; subst hb; rfl
            rw [if_pos h2]
          · have h2 : ¬(((k2, k1) : Nat × Nat) = (j, i) ∨ ((k2, k1) : Nat × Nat) = (i, j)) := by
              intro h
              apply h1
              rcases h with h | h
              · right
                injection h with ha hb
                subst ha; subst hb; rfl
              · left
                injection h with ha hb
                subst ha; subst hb; rfl
            rw [if_neg h1, if_neg h2]
            exact hinv.1 k1 k2
        · intro x y d anc lab hmem
          rcases List.mem_append.mp hmem with h | h
          · obtain ⟨hold, hdne⟩ := hinv.2 x y d anc lab h
            refine ⟨?_, hdne⟩
            rw [arrGet_setset]
            by_cases h1 : ((ss.indexOf x, ss.indexOf y) : Nat × Nat) = (j, i) ∨
                ((ss.indexOf x, ss.indexOf y) : Nat × Nat) = (i, j)
            · rw [if_pos h1]
              have hcurd : arrGet st.1 (i, j) = d := by
                rcases h1 with h1 | h1
                · injection h1 with hx hy
                  rw [hx, hy] at hold
                  rw [hinv.1 i j]
                  exact hold
                · injection h1 with hx hy
                  rw [hx, hy] at hold
                  exact hold
              rw [if_neg (by simp [hcurd, hdne])]
              exact hcurd
            · rw [if_neg h1]
              exact hold
          · have hxy := List.mem_singleton.mp h
            injection hxy with e1 e2 e3 e4 e5
            subst e1; subst e2; subst e3
            refine ⟨?_, hbDne⟩
            rw [hia, hjb, arrGet_setset, if_pos (Or.inr rfl)]

theorem pairsIdx_lt {n : Nat} {ij : Nat × Nat} (h : ij ∈ pairsIdx n) :
    ij.1 < n ∧ ij.2 < n := by
  simp only [pairsIdx, List.mem_flatMap, List.mem_map, List.mem_range] at h
  obtain ⟨i, hi, j, hj, heq⟩ := h
  rw [← heq]
  exact ⟨hi, hj⟩

theorem foldl_edgeStep_bentInv {ts : Transitions} {g : Grid} {style : String}
    {ss : List String} (hnd : ss.Nodup) :
    ∀ (L : List (Nat × Nat)) (st : List ((Nat × Nat) × String) × List Edge),
      (∀ ij ∈ L, ij.1 < ss.length ∧ ij.2 < ss.length) →
      BentInv ss st → BentInv ss (L.foldl (edgeStep ts g style ss) st) := by
  intro L
  induction L with
  | nil => intro st _ hinv; exact hinv
  | cons ij L ih =>
    intro st hall hinv
    rw [List.foldl_cons]
    obtain ⟨h1, h2⟩ := hall ij (List.mem_cons_self _ _)
    have hstep : BentInv ss (edgeStep ts g style ss st (ij.1, ij.2)) :=
      edgeStep_bentInv hnd h1 h2 hinv
    have hij : (ij.1, ij.2) = ij := rfl
    rw [hij] at hstep
    exact ih _ (fun x hx => hall x (List.mem_cons_of_mem _ hx)) hstep

theorem genEdges_bentInv (ts : Transitions) (g : Grid) (style : String)
    (ss : List String) (hnd : ss.Nodup) :
    BentInv ss ((pairsIdx ss.length).foldl (edgeStep ts g style ss) ([], [])) := by
  apply foldl_edgeStep_bentInv hnd
  · intro ij hij
    exact pairsIdx_lt hij
  · constructor
    · intro k1 k2; rfl
    · intro a b d anc lab hmem
      exact absurd hmem (List.not_mem_nil _)

theorem checkConnection_eq_two {ts : Transitions} {a b : String}
    (h : checkConnection ts a b = 2) :
    (checkTransition ts a b).isSome = true ∧ (checkTransition ts b a).isSome = true := by
  unfold checkConnection at h
  by_cases h1 : ((checkTransition ts a b).isSome && (checkTransition ts b a).isSome) = true
  · exact (Bool.and_eq_true _ _).mp h1
  · rw [if_neg h1] at h
    split at h <;> omega

theorem checkConnection_symm_two {ts : Transitions} {a b : String}
    (h : checkConnection ts a b = 2) : checkConnection ts b a = 2 := by
  obtain ⟨h1, h2⟩ := checkConnection_eq_two h
  unfold checkConnection
  rw [h1, h2]
  simp

theorem straightCond_of_mutual {ts : Transitions} {g : Grid} {a b : String}
    (h : checkConnection ts a b = 2) : straightCond ts g a b = false := by
  unfold straightCond
  rw [h]
  simp

/-- C6 counterexample: for the mutual pair q1↔q2 on the grid `[[q1, q2]]`,
BOTH emitted bent-edge declarations carry the SAME bend token `"left"` (the
second direction reuses the value stored for the first), not opposing ones. -/
theorem C6_counterexample :
    genEdges [("q1", [("0", ["q2"])]), ("q2", [("0", ["q1"])])]
        (findOptimalStatePlacement ["q1", "q2"] "q1" ["q2"]
          [("q1", [("0", ["q2"])]), ("q2", [("0", ["q1"])])] false)
        "roman" ["q1", "q2"] =
      [Edge.bent "q1" "q2" "left" "above" "0", Edge.bent "q2" "q1" "left" "above" "0"] ∧
      ("left" : String) ≠ "right" := by
  constructor
  · decide
  · decide

/-- C6 (amended): for every mutual pair of states A and B, the two emitted
bent-edge declarations carry the SAME bend-direction token (the direction
computed for whichever direction is emitted first is stored symmetrically in
`bendDirectionArray` and reused for the reverse direction); the two arcs still
separate visually because the same token applied to opposite travel
directions bends to geometrically opposite sides. -/
theorem C6_same_bend_token (ts : Transitions) (g : Grid) (style : String)
    (ss : List String) (hnd : ss.Nodup) (a b : String)
    (ha : a ∈ ss) (hb : b ∈ ss) (hab : a ≠ b)
    (hmut : checkConnection ts a b = 2) :
    ∃ d, (∃ anc lab, Edge.bent a b d anc lab ∈ genEdges ts g style ss) ∧
         (∃ anc lab, Edge.bent b a d anc lab ∈ genEdges ts g style ss) := by
  obtain ⟨hab1, hba1⟩ := checkConnection_eq_two hmut
  obtain ⟨sy1, hsy1⟩ := Option.isSome_iff_exists.mp hab1
  obtain ⟨sy2, hsy2⟩ := Option.isSome_iff_exists.mp hba1
  obtain ⟨i, hi, hia⟩ := List.mem_iff_getElem.mp ha
  obtain ⟨j, hj, hjb⟩ := List.mem_iff_getElem.mp hb
  have hsa : stateAt ss i = a := by rw [stateAt_eq hi, hia]
  have hsb : stateAt ss j = b := by rw [stateAt_eq hj, hjb]
  have hsc1 : straightCond ts g a b = false := straightCond_of_mutual hmut
  have hsc2 : straightCond ts g b a = false :=
    straightCond_of_mutual (checkConnection_symm_two hmut)
  obtain ⟨d1, hm1⟩ := bent_emitted ts g style ss hi hj
    (by rw [hsa, hsb]; exact hab) (by rw [hsa, hsb]; exact hsy1)
    (by rw [hsa, hsb]; exact hsc1)
  obtain ⟨d2, hm2⟩ := bent_emitted ts g style ss hj hi
    (by rw [hsa, hsb]; exact hab.symm) (by rw [hsa, hsb]; exact hsy2)
    (by rw [hsa, hsb]; exact hsc2)
  rw [hsa, hsb] at hm1 hm2
  have hinv := genEdges_bentInv ts g style ss hnd
  have e1 := hinv.2 a b d1 _ _ hm1
  have e2 := hinv.2 b a d2 _ _ hm2
  have hdd : d1 = d2 := by
    rw [← e1.1, ← e2.1]
    exact hinv.1 (ss.indexOf a) (ss.indexOf b)
  refine ⟨d1, ⟨(bendDirection a b g).2, labelOf sy1 style, hm1⟩,
    ⟨(bendDirection b a g).2, labelOf sy2 style, ?_⟩⟩
  rw [hdd]
  exact hm2

/-- Witness for C6 (amended) at the concrete mutual pair q1↔q2. -/
theorem C6_witness :
    ∃ d, (∃ anc lab, Edge.bent "q1" "q2" d anc lab ∈
        genEdges [("q1", [("0", ["q2"])]), ("q2", [("0", ["q1"])])]
          (findOptimalStatePlacement ["q1", "q2"] "q1" ["q2"]
            [("q1", [("0", ["q2"])]), ("q2", [("0", ["q1"])])] false)
          "roman" ["q1", "q2"]) ∧
      (∃ anc lab, Edge.bent "q2" "q1" d anc lab ∈
        genEdges [("q1", [("0", ["q2"])]), ("q2", [("0", ["q1"])])]
          (findOptimalStatePlacement ["q1", "q2"] "q1" ["q2"]
            [("q1", [("0", ["q2"])]), ("q2", [("0", ["q1"])])] false)
          "roman" ["q1", "q2"]) :=
  C6_same_bend_token [("q1", [("0", ["q2"])]), ("q2", [("0", ["q1"])])]
    (findOptimalStatePlacement ["q1", "q2"] "q1" ["q2"]
      [("q1", [("0", ["q2"])]), ("q2", [("0", ["q1"])])] false)
    "roman" ["q1", "q2"] (by decide) "q1" "q2" (by decide) (by decide) (by decide) (by decide)
